import Mathlib

/-!
Verification of the WaveSource marigram pipeline (src/Tsunami_Marigram.py)
against its specification.

The Python source is shallowly embedded: strings are Lean `String`s
(manipulated through their `List Char` data), Python sets and dicts are
association lists, and the regular expressions of the source are embedded
as explicit, executable scanners over `List Char` that reproduce the
semantics of the concrete patterns used by the program (leftmost match,
ordered alternation, greedy and lazy repetition as they play out for these
particular patterns).
-/

/-! ## Small string utilities (src lines 158-165) -/

/-- The character classes of CPython's str.strip / the regex class \s,
restricted to the characters that can actually occur in the embedded
texts. -/
def pyWs (c : Char) : Bool := c = ' ' ∨ c = '\t' ∨ c = '\n' ∨ c = '\r'

/-- Python str.strip(): remove leading and trailing whitespace. -/
def pyStrip (s : String) : String :=
  ⟨((s.data.dropWhile pyWs).reverse.dropWhile pyWs).reverse⟩

/-- Python str.upper() on the ASCII texts handled by the program. -/
def pyUpper (s : String) : String := ⟨s.data.map Char.toUpper⟩

/-- Embeds _upper (src line 158): (s or "").strip().upper(). -/
def upperNorm (s : String) : String := pyUpper (pyStrip s)

/-! ## Allow-list resolution (src lines 244-255, validate_against_allow_list) -/

/-- Embeds validate_against_allow_list: exact-match-or-flag resolution of a
candidate against a reference vocabulary (modelled as a list of strings,
membership being all the source uses of the Python set). -/
def validate_against_allow_list (value : String) (allow : List String) :
    String × Bool :=
  if value = "" ∨ pyStrip value = "" then ("", true)
  else if upperNorm value ∈ allow then (upperNorm value, false)
  else (pyStrip value, true)

theorem validate_flag_false (value : String) (allow : List String)
    (h : (validate_against_allow_list value allow).2 = false) :
    (validate_against_allow_list value allow).1 = upperNorm value ∧
      (validate_against_allow_list value allow).1 ∈ allow := by
  unfold validate_against_allow_list at *
  by_cases h1 : value = "" ∨ pyStrip value = ""
  · rw [if_pos h1] at h; simp at h
  · rw [if_neg h1] at *
    by_cases h2 : upperNorm value ∈ allow
    · rw [if_pos h2]; exact ⟨rfl, h2⟩
    · rw [if_neg h2] at h; simp at h

theorem validate_flag_true (value : String) (allow : List String)
    (h : upperNorm value ∉ allow) :
    validate_against_allow_list value allow = (pyStrip value, true) := by
  unfold validate_against_allow_list
  by_cases h1 : value = "" ∨ pyStrip value = ""
  · rw [if_pos h1]
    rcases h1 with h1 | h1
    · subst h1; rfl
    · rw [h1]
  · rw [if_neg h1, if_neg h]
/-- C1, the claim as frozen, fails on the code: for a candidate that misses
the vocabulary the resolver returns the *stripped* candidate, not the
original unmodified text.  Here the candidate is " tokyo " and the value
returned alongside review-flag=true is "tokyo". -/
theorem C1_counterexample :
    validate_against_allow_list " tokyo " ["JAPAN"] = ("tokyo", true) ∧
      ("tokyo" : String) ≠ " tokyo " := by
  constructor
  · rfl
  · decide

/-- C1 (amended): if the resolver returns review-flag=false, the returned
value is the upper-cased trimmed normalization of the candidate and is a
member of the vocabulary; if the candidate (after normalization) is not in
the vocabulary, the resolver returns the *trimmed* candidate text (empty
when the candidate is empty or whitespace-only) with review-flag=true. -/
theorem C1_allow_list_resolution (value : String) (allow : List String) :
    ((validate_against_allow_list value allow).2 = false →
      (validate_against_allow_list value allow).1 = upperNorm value ∧
        (validate_against_allow_list value allow).1 ∈ allow) ∧
    (upperNorm value ∉ allow →
      validate_against_allow_list value allow = (pyStrip value, true)) :=
  ⟨validate_flag_false value allow, validate_flag_true value allow⟩

theorem C1_witness :
    validate_against_allow_list " japan " ["JAPAN"] = ("JAPAN", false) ∧
      validate_against_allow_list " peru " ["JAPAN"] = ("peru", true) := by
  constructor
  · rfl
  · exact (C1_allow_list_resolution " peru " ["JAPAN"]).2 (by decide)

/-! ## Region-code resolution (src lines 257-272, parse_region_code_strict)

The two regexes of the source are embedded as scanners:
re.search of [(dd)] and of REGION (word-bounded, case-insensitive)
followed by non-digits and a word-bounded two-digit code. -/

/-- The regex word class \w restricted to ASCII, as used by \b. -/
def isWordChar (c : Char) : Bool := c.isAlphanum ∨ c = '_'

/-- Match of the bracket pattern anchored at the head of the list. -/
def bracketAt (l : List Char) : Option (List Char) :=
  match l with
  | a :: d1 :: d2 :: b :: _ =>
    if a = '[' ∧ b = ']' ∧ d1.isDigit ∧ d2.isDigit then some [d1, d2] else none
  | _ => none

/-- Leftmost match of the bracket pattern: re.search of [(dd)]. -/
def findBracket : List Char → Option (List Char)
  | [] => none
  | c :: cs =>
    match bracketAt (c :: cs) with
    | some ds => some ds
    | none => findBracket cs

/-- After the word REGION: skip non-digits, then require two digits
followed by a word boundary (the regex tail of the second pattern). -/
def regionDigits : List Char → Option (List Char)
  | [] => none
  | [_] => none
  | c :: d2 :: rest2 =>
    if c.isDigit then
      if d2.isDigit ∧ (rest2 = [] ∨ isWordChar (rest2.headD ' ') = false) then
        some [c, d2]
      else none
    else regionDigits (d2 :: rest2)

/-- Match of the REGION pattern anchored at the head of the list, given
whether the previous character was a word character. -/
def regionAt (prevW : Bool) (l : List Char) : Option (List Char) :=
  match l with
  | r :: e :: g :: i :: o :: n :: rest =>
    if prevW = false ∧ [r, e, g, i, o, n].map Char.toUpper = "REGION".data ∧
        (rest = [] ∨ isWordChar (rest.headD ' ') = false) then
      regionDigits rest
    else none
  | _ => none

/-- Leftmost match of the REGION pattern. -/
def findRegion : Bool → List Char → Option (List Char)
  | _, [] => none
  | prevW, c :: cs =>
    match regionAt prevW (c :: cs) with
    | some ds => some ds
    | none => findRegion (isWordChar c) cs

/-- The second branch of parse_region_code_strict (the REGION regex). -/
def regionFromWord (ocr_text : String) (regions_map : List (String × String)) :
    String × Bool :=
  match findRegion false ocr_text.data with
  | some ds =>
    if (⟨ds⟩ : String) ∈ regions_map.map Prod.fst then ((⟨ds⟩ : String), false)
    else ("", true)
  | none => ("", true)

/-- Embeds parse_region_code_strict: accept only an explicit two-digit code
found in the text that is also a key of the regions map (modelled as an
association list). -/
def parse_region_code_strict (ocr_text : String)
    (regions_map : List (String × String)) : String × Bool :=
  if ocr_text = "" then ("", true)
  else
    match findBracket ocr_text.data with
    | some ds =>
      if (⟨ds⟩ : String) ∈ regions_map.map Prod.fst then ((⟨ds⟩ : String), false)
      else regionFromWord ocr_text regions_map
    | none => regionFromWord ocr_text regions_map

/-- A two-digit code inside square brackets occurs in the text. -/
def BracketOccurs (cs ds : List Char) : Prop :=
  ∃ pre d1 d2 post, cs = pre ++ '[' :: d1 :: d2 :: ']' :: post ∧
    d1.isDigit ∧ d2.isDigit ∧ ds = [d1, d2]

/-- A two-digit code occurs after a (case-variant) occurrence of the word
REGION with no digit characters in between. -/
def RegionGapOccurs (cs ds : List Char) : Prop :=
  ∃ pre w gap d1 d2 post, cs = pre ++ w ++ gap ++ d1 :: d2 :: post ∧
    w.map Char.toUpper = "REGION".data ∧ (∀ x ∈ gap, x.isDigit = false) ∧
    d1.isDigit ∧ d2.isDigit ∧ ds = [d1, d2]

theorem bracketAt_sound (l ds : List Char) (h : bracketAt l = some ds) :
    ∃ d1 d2 post, l = '[' :: d1 :: d2 :: ']' :: post ∧
      d1.isDigit ∧ d2.isDigit ∧ ds = [d1, d2] := by
  rcases l with _ | ⟨a, _ | ⟨d1, _ | ⟨d2, _ | ⟨b, rest⟩⟩⟩⟩ <;>
    simp [bracketAt] at h
  rcases h with ⟨⟨ha, hb, h1, h2⟩, hds⟩
  exact ⟨d1, d2, rest, by rw [ha, hb], h1, h2, hds.symm⟩

theorem findBracket_sound (l ds : List Char) (h : findBracket l = some ds) :
    BracketOccurs l ds := by
  induction l with
  | nil => simp [findBracket] at h
  | cons c cs ih =>
    rw [findBracket] at h
    cases hb : bracketAt (c :: cs) with
    | some ds2 =>
      rw [hb] at h
      obtain ⟨d1, d2, post, hshape, h1, h2, hds⟩ :=
        bracketAt_sound _ _ hb
      exact ⟨[], d1, d2, post, by simpa using hshape, h1, h2, by
        simp at h; rw [← h, hds]⟩
    | none =>
      rw [hb] at h
      obtain ⟨pre, d1, d2, post, hshape, h1, h2, hds⟩ := ih h
      exact ⟨c :: pre, d1, d2, post, by rw [hshape]; rfl, h1, h2, hds⟩

theorem regionDigits_sound (l ds : List Char) (h : regionDigits l = some ds) :
    ∃ gap d1 d2 post, l = gap ++ d1 :: d2 :: post ∧
      (∀ x ∈ gap, x.isDigit = false) ∧ d1.isDigit ∧ d2.isDigit ∧
      ds = [d1, d2] := by
  induction l with
  | nil => simp [regionDigits] at h
  | cons c rest ih =>
    rcases rest with _ | ⟨d2, rest2⟩
    · simp [regionDigits] at h
    · simp only [regionDigits] at h
      by_cases hc : c.isDigit
      · rw [if_pos hc] at h
        by_cases h2 : d2.isDigit ∧ (rest2 = [] ∨ isWordChar (rest2.headD ' ') = false)
        · rw [if_pos h2] at h
          simp at h
          exact ⟨[], c, d2, rest2, rfl, by simp, hc, h2.1, h.symm⟩
        · rw [if_neg h2] at h; simp at h
      · rw [if_neg hc] at h
        obtain ⟨gap, d1, d2', post, hshape, hgap, h1, h2, hds⟩ := ih h
        refine ⟨c :: gap, d1, d2', post, by rw [hshape]; rfl, ?_, h1, h2, hds⟩
        intro x hx
        rcases List.mem_cons.mp hx with hx | hx
        · subst hx; simpa using hc
        · exact hgap x hx

theorem regionAt_sound (b : Bool) (l ds : List Char)
    (h : regionAt b l = some ds) :
    ∃ w gap d1 d2 post, l = w ++ gap ++ d1 :: d2 :: post ∧
      w.map Char.toUpper = "REGION".data ∧ (∀ x ∈ gap, x.isDigit = false) ∧
      d1.isDigit ∧ d2.isDigit ∧ ds = [d1, d2] := by
  rcases l with _ | ⟨r, _ | ⟨e, _ | ⟨g, _ | ⟨i, _ | ⟨o, _ | ⟨n, rest⟩⟩⟩⟩⟩⟩
  · simp [regionAt] at h
  · simp [regionAt] at h
  · simp [regionAt] at h
  · simp [regionAt] at h
  · simp [regionAt] at h
  · simp [regionAt] at h
  simp only [regionAt] at h
  split_ifs at h with hcond
  obtain ⟨gap, d1, d2, post, hshape, hgap, h1, h2, hds⟩ :=
    regionDigits_sound _ _ h
  exact ⟨[r, e, g, i, o, n], gap, d1, d2, post, by rw [hshape]; rfl,
    hcond.2.1, hgap, h1, h2, hds⟩

theorem findRegion_sound (b : Bool) (l ds : List Char)
    (h : findRegion b l = some ds) : RegionGapOccurs l ds := by
  induction l generalizing b with
  | nil => simp [findRegion] at h
  | cons c cs ih =>
    rw [findRegion] at h
    cases hb : regionAt b (c :: cs) with
    | some ds2 =>
      rw [hb] at h
      simp at h
      obtain ⟨w, gap, d1, d2, post, hshape, hw, hgap, h1, h2, hds⟩ :=
        regionAt_sound _ _ _ hb
      exact ⟨[], w, gap, d1, d2, post, by simpa using hshape, hw, hgap,
        h1, h2, by rw [← h, hds]⟩
    | none =>
      rw [hb] at h
      obtain ⟨pre, w, gap, d1, d2, post, hshape, hw, hgap, h1, h2, hds⟩ :=
        ih (isWordChar c) h
      exact ⟨c :: pre, w, gap, d1, d2, post, by rw [hshape]; rfl, hw, hgap,
        h1, h2, hds⟩

theorem mk_two_ne_empty (d1 d2 : Char) : (⟨[d1, d2]⟩ : String) ≠ "" := by
  intro h
  have : ([d1, d2] : List Char) = [] := congrArg String.data h
  simp at this

theorem regionFromWord_spec (text : String)
    (regions_map : List (String × String)) :
    ((regionFromWord text regions_map).1 ≠ "" →
      (regionFromWord text regions_map).1 ∈ regions_map.map Prod.fst ∧
        (regionFromWord text regions_map).2 = false ∧
        RegionGapOccurs text.data (regionFromWord text regions_map).1.data) ∧
    ((regionFromWord text regions_map).1 = "" →
      (regionFromWord text regions_map).2 = true) := by
  unfold regionFromWord
  cases hr : findRegion false text.data with
  | some ds =>
    dsimp only
    by_cases hm : (⟨ds⟩ : String) ∈ regions_map.map Prod.fst
    · rw [if_pos hm]
      exact ⟨fun _ => ⟨hm, rfl, findRegion_sound _ _ _ hr⟩, fun h => by
        obtain ⟨_, _, _, _, _, _, _, _, _, _, _, hds⟩ := findRegion_sound _ _ _ hr
        exact absurd h (by rw [hds]; exact mk_two_ne_empty _ _)⟩
    · rw [if_neg hm]
      exact ⟨fun h => absurd rfl h, fun _ => rfl⟩
  | none => exact ⟨fun h => absurd rfl h, fun _ => rfl⟩

/-- C4 (amended): region-code resolution returns a non-empty result only
when the text contains a two-digit code either inside square brackets or
after the word REGION with no intervening digit characters, and that exact
code is a key of the Region Map; whenever the result is empty the review
flag is true. -/
theorem C4_region_code (text : String) (regions_map : List (String × String)) :
    ((parse_region_code_strict text regions_map).1 ≠ "" →
      (parse_region_code_strict text regions_map).1 ∈ regions_map.map Prod.fst ∧
        (parse_region_code_strict text regions_map).2 = false ∧
        (BracketOccurs text.data (parse_region_code_strict text regions_map).1.data ∨
         RegionGapOccurs text.data (parse_region_code_strict text regions_map).1.data)) ∧
    ((parse_region_code_strict text regions_map).1 = "" →
      (parse_region_code_strict text regions_map).2 = true) := by
  unfold parse_region_code_strict
  by_cases ht : text = ""
  · rw [if_pos ht]
    exact ⟨fun h => absurd rfl h, fun _ => rfl⟩
  · rw [if_neg ht]
    cases hb : findBracket text.data with
    | some ds =>
      dsimp only
      by_cases hm : (⟨ds⟩ : String) ∈ regions_map.map Prod.fst
      · rw [if_pos hm]
        refine ⟨fun _ => ⟨hm, rfl, Or.inl (findBracket_sound _ _ hb)⟩, fun h => ?_⟩
        obtain ⟨_, d1, d2, _, _, _, _, hds⟩ := findBracket_sound _ _ hb
        exact absurd h (by rw [hds]; exact mk_two_ne_empty _ _)
      · rw [if_neg hm]
        have hsp := regionFromWord_spec text regions_map
        exact ⟨fun h => ⟨(hsp.1 h).1, (hsp.1 h).2.1, Or.inr (hsp.1 h).2.2⟩, hsp.2⟩
    | none =>
      have hsp := regionFromWord_spec text regions_map
      exact ⟨fun h => ⟨(hsp.1 h).1, (hsp.1 h).2.1, Or.inr (hsp.1 h).2.2⟩, hsp.2⟩

theorem C4_witness :
    (parse_region_code_strict "[22]" [("22", "X")]).1 ≠ "" ∧
      (parse_region_code_strict "[22]" [("22", "X")]).1 ∈
        [("22", "X")].map Prod.fst :=
  ⟨by decide, ((C4_region_code "[22]" [("22", "X")]).1 (by decide)).1⟩

/-- Whether pat occurs as a contiguous segment of the list. -/
def containsSeg (pat : List Char) : List Char → Bool
  | [] => pat.isEmpty
  | c :: cs => pat.isPrefixOf (c :: cs) || containsSeg pat cs

/-- Spec-side formalisation (from the spec's words, for comparison with the
code): the code occurs immediately after the literal word REGION, allowing
only whitespace in between. -/
def afterRegionAux (code : List Char) : List Char → Bool
  | [] => false
  | c :: cs =>
    ("REGION".data.isPrefixOf (c :: cs) &&
        code.isPrefixOf (((c :: cs).drop 6).dropWhile pyWs)) ||
      afterRegionAux code cs

def specAfterRegion (text code : String) : Bool :=
  afterRegionAux code.data text.data

/-- Spec-side formalisation (from the spec's words, for comparison with the
code): a two-digit code inside square brackets occurs in the text. -/
def specBracketCode (text code : String) : Bool :=
  code.data.length = 2 ∧ code.data.all Char.isDigit ∧
    containsSeg ('[' :: code.data ++ [']']) text.data

/-- C4, the claim as frozen, fails on the code: on "REGION XX 22" with
"22" a key of the Region Map, the code returns ("22", false) although "22"
is neither inside square brackets nor immediately following the word
REGION (letters stand between them). -/
theorem C4_counterexample :
    parse_region_code_strict "REGION XX 22" [("22", "EAST COAST")] =
        ("22", false) ∧
      specBracketCode "REGION XX 22" "22" = false ∧
      specAfterRegion "REGION XX 22" "22" = false := by
  refine ⟨by decide, by decide, by decide⟩

/-! ## Location-short (IOC station code) resolution
(src lines 346-352, resolve_location_short_strict, and the call chain of
process_one_image, src lines 763-771) -/

/-- The shape test IOC_CODE_RE: 3 to 6 alphanumeric characters. -/
def iocCodeOk (code : String) : Bool :=
  3 ≤ code.data.length ∧ code.data.length ≤ 6 ∧ code.data.all Char.isAlphanum

/-- Embeds resolve_location_short_strict.  The station index
(COUNTRY_UPPER, LOCATION_UPPER) -> code dict is modelled as an association
list (first entry wins, as in the scraper which keeps the first occurrence
of a key). -/
def resolve_location_short_strict (country location : String)
    (ioc_index : List ((String × String) × String)) : String × Bool :=
  if ioc_index = [] ∨ country = "" ∨ location = "" then ("", true)
  else if (ioc_index.lookup (upperNorm country, upperNorm location)).getD "" ≠ "" ∧
      iocCodeOk ((ioc_index.lookup (upperNorm country, upperNorm location)).getD "") then
    ((ioc_index.lookup (upperNorm country, upperNorm location)).getD "", false)
  else ("", true)

/-- The per-field resolution chain of process_one_image (src lines
763-771): validate country/state/location against the allow-lists, then
resolve the region code and the station code; the station-code lookup is
keyed on the *resolved* country and location values, and the review flags
are not consulted. -/
def resolve_fields (country_ocr state_ocr location_ocr text_clean : String)
    (countries states locations : List String)
    (regions_map : List (String × String))
    (ioc_index : List ((String × String) × String)) :
    (String × Bool) × (String × Bool) × (String × Bool) × (String × Bool) ×
      (String × Bool) :=
  let c := validate_against_allow_list country_ocr countries
  let s := validate_against_allow_list state_ocr states
  let l := validate_against_allow_list location_ocr locations
  let rc := parse_region_code_strict text_clean regions_map
  let ls := resolve_location_short_strict c.1 l.1 ioc_index
  (c, s, l, rc, ls)

theorem resolve_location_short_nonempty (country location : String)
    (ioc_index : List ((String × String) × String))
    (h : (resolve_location_short_strict country location ioc_index).1 ≠ "") :
    country ≠ "" ∧ location ≠ "" ∧
      ioc_index.lookup (upperNorm country, upperNorm location) =
        some (resolve_location_short_strict country location ioc_index).1 ∧
      iocCodeOk (resolve_location_short_strict country location ioc_index).1 =
        true ∧
      (resolve_location_short_strict country location ioc_index).2 = false := by
  unfold resolve_location_short_strict at *
  by_cases h1 : ioc_index = [] ∨ country = "" ∨ location = ""
  · rw [if_pos h1] at h; exact absurd rfl h
  · rw [if_neg h1] at h ⊢
    push_neg at h1
    cases hl : ioc_index.lookup (upperNorm country, upperNorm location) with
    | none =>
      rw [hl] at h
      simp only [Option.getD_none] at h
      rw [if_neg (by simp)] at h
      exact absurd rfl h
    | some code =>
      rw [hl] at h
      simp only [Option.getD_some] at h ⊢
      by_cases h2 : code ≠ "" ∧ iocCodeOk code
      · rw [if_pos h2]
        exact ⟨h1.2.1, h1.2.2, rfl, by simpa using h2.2, rfl⟩
      · rw [if_neg h2] at h
        exact absurd rfl h

/-- C2, the claim as frozen, fails on the code: the station-code lookup
never consults the review flags, so an unresolved (review-flag=true)
country and location can still produce a non-empty station code whenever
the pair happens to be a key of the station index.  Here the vocabularies
are empty, so both fields carry review-flag=true, yet the station code
"VALP" is returned with review-flag=false. -/
theorem C2_counterexample :
    (resolve_fields "chile" "" "valparaiso" "" [] [] [] []
        [(("CHILE", "VALPARAISO"), "VALP")]).2.2.2.2 = ("VALP", false) ∧
      (resolve_fields "chile" "" "valparaiso" "" [] [] [] []
        [(("CHILE", "VALPARAISO"), "VALP")]).1.2 = true ∧
      (resolve_fields "chile" "" "valparaiso" "" [] [] [] []
        [(("CHILE", "VALPARAISO"), "VALP")]).2.2.1.2 = true := by
  refine ⟨by decide, by decide, by decide⟩

/-- C2 (amended): location-short resolution returns a non-empty station
code only if the resolved country and location values are non-empty and
the pair of their upper-cased trimmed forms is a key of the Station Index
mapped to that code, the code having the 3-6 alphanumeric shape; the
review flags of country and location are not consulted. -/
theorem C2_location_short (country_ocr state_ocr location_ocr text_clean :
      String)
    (countries states locations : List String)
    (regions_map : List (String × String))
    (ioc_index : List ((String × String) × String))
    (h : (resolve_fields country_ocr state_ocr location_ocr text_clean
        countries states locations regions_map ioc_index).2.2.2.2.1 ≠ "") :
    (resolve_fields country_ocr state_ocr location_ocr text_clean
        countries states locations regions_map ioc_index).1.1 ≠ "" ∧
    (resolve_fields country_ocr state_ocr location_ocr text_clean
        countries states locations regions_map ioc_index).2.2.1.1 ≠ "" ∧
    ioc_index.lookup
        (upperNorm (resolve_fields country_ocr state_ocr location_ocr
          text_clean countries states locations regions_map ioc_index).1.1,
         upperNorm (resolve_fields country_ocr state_ocr location_ocr
          text_clean countries states locations regions_map ioc_index).2.2.1.1) =
      some (resolve_fields country_ocr state_ocr location_ocr text_clean
        countries states locations regions_map ioc_index).2.2.2.2.1 ∧
    iocCodeOk (resolve_fields country_ocr state_ocr location_ocr text_clean
        countries states locations regions_map ioc_index).2.2.2.2.1 = true := by
  have hmain := resolve_location_short_nonempty
    (validate_against_allow_list country_ocr countries).1
    (validate_against_allow_list location_ocr locations).1 ioc_index h
  exact ⟨hmain.1, hmain.2.1, hmain.2.2.1, hmain.2.2.2.1⟩

theorem C2_witness :
    (resolve_fields "japan" "" "tokyo" "" ["JAPAN"] [] ["TOKYO"] []
        [(("JAPAN", "TOKYO"), "TOK1")]).2.2.2.2.1 ≠ "" ∧
      (resolve_fields "japan" "" "tokyo" "" ["JAPAN"] [] ["TOKYO"] []
        [(("JAPAN", "TOKYO"), "TOK1")]).1.1 ≠ "" :=
  ⟨by decide,
   (C2_location_short "japan" "" "tokyo" "" ["JAPAN"] [] ["TOKYO"] []
      [(("JAPAN", "TOKYO"), "TOK1")] (by decide)).1⟩

/-! ## Output rows, progress log and the main loop
(src lines 134-152 Row, 707-718 load_processed_ids, 927-980 main) -/

/-- Embeds the Row dataclass (src lines 134-152). -/
structure Row where
  FILE_NAME : String
  COUNTRY : String := ""
  STATE : String := ""
  LOCATION : String := ""
  LOCATION_SHORT : String := ""
  REGION_CODE : String := ""
  START_RECORD : String := ""
  END_RECORD : String := ""
  TSEVENT_ID : String := ""
  TSRUNUP_ID : String := ""
  RECORDED_DATE : String := ""
  LATITUDE : String := ""
  LONGITUDE : String := ""
  IMAGES : String := ""
  SCALE : String := ""
  MICROFILM_NAME : String := ""
  COMMENTS : String := ""
deriving DecidableEq

/-- One parsed line of the progress log (the fields the resume logic
reads).  Unparseable lines are skipped by the reader and are not
represented. -/
structure LogEntry where
  file_id : String
  status : String
deriving DecidableEq

/-- Embeds load_processed_ids: replay the log and keep the identities of
entries whose status is "ok" (the Python set is modelled by list
membership). -/
def load_processed_ids (log : List LogEntry) : List String :=
  (log.filter (fun e => e.status = "ok")).map LogEntry.file_id

/-- The state threaded through the loop of main: the in-memory buffer of
completed rows, the batches flushed to the Excel store so far, and the
appended progress-log entries. -/
structure RunState where
  buffer : List Row
  flushes : List (List Row)
  log : List LogEntry
deriving DecidableEq

def initState : RunState := ⟨[], [], []⟩

/-- One iteration of the loop of main (src lines 932-977) for an attempted
item: on success (some row) the row is buffered, an "ok" entry is logged
and the buffer is flushed once it reaches 25 rows; on any per-item failure
(none) an "error" entry is logged and nothing else changes. -/
def stepItem (s : RunState) (it : String × Option Row) : RunState :=
  match it.2 with
  | some row =>
    if 25 ≤ (s.buffer ++ [row]).length then
      ⟨[], s.flushes ++ [s.buffer ++ [row]], s.log ++ [⟨it.1, "ok"⟩]⟩
    else
      ⟨s.buffer ++ [row], s.flushes, s.log ++ [⟨it.1, "ok"⟩]⟩
  | none => ⟨s.buffer, s.flushes, s.log ++ [⟨it.1, "error"⟩]⟩

def runItems (s : RunState) : List (String × Option Row) → RunState
  | [] => s
  | it :: rest => runItems (stepItem s it) rest

/-- The final flush of main (src lines 979-980): a non-empty leftover
buffer is written out at the end of the run. -/
def finishRun (s : RunState) : RunState :=
  if s.buffer = [] then s else ⟨[], s.flushes ++ [s.buffer], s.log⟩

/-- The items the loop skips (src lines 928-930). -/
def skippedItems (resume : Bool) (processed : List String)
    (items : List (String × Option Row)) : List (String × Option Row) :=
  items.filter (fun it => resume ∧ it.1 ∈ processed)

/-- The items the loop attempts. -/
def attemptedItems (resume : Bool) (processed : List String)
    (items : List (String × Option Row)) : List (String × Option Row) :=
  items.filter (fun it => ¬ (resume ∧ it.1 ∈ processed))

/-- The whole run loop of main over its image items. -/
def mainLoop (resume : Bool) (processed : List String)
    (items : List (String × Option Row)) : RunState :=
  finishRun (runItems initState (attemptedItems resume processed items))

theorem load_processed_ids_mem (log : List LogEntry) (id : String) :
    id ∈ load_processed_ids log ↔
      ∃ e ∈ log, e.file_id = id ∧ e.status = "ok" := by
  unfold load_processed_ids
  simp only [List.mem_map, List.mem_filter, decide_eq_true_eq]
  constructor
  · rintro ⟨e, ⟨he, hs⟩, hid⟩
    exact ⟨e, he, hid, hs⟩
  · rintro ⟨e, he, hid, hs⟩
    exact ⟨e, ⟨he, hs⟩, hid⟩

/-- C3: replaying the progress log yields exactly the identities having at
least one "ok" entry, a resumed run skips exactly the items whose identity
is in that set, attempts exactly the others, and in particular re-attempts
every item all of whose entries are "error". -/
theorem C3_resume_law (log : List LogEntry)
    (items : List (String × Option Row)) (id : String)
    (it : String × Option Row) :
    (id ∈ load_processed_ids log ↔
      ∃ e ∈ log, e.file_id = id ∧ e.status = "ok") ∧
    (it ∈ skippedItems true (load_processed_ids log) items ↔
      it ∈ items ∧ ∃ e ∈ log, e.file_id = it.1 ∧ e.status = "ok") ∧
    (it ∈ attemptedItems true (load_processed_ids log) items ↔
      it ∈ items ∧ ¬ ∃ e ∈ log, e.file_id = it.1 ∧ e.status = "ok") ∧
    ((∀ e ∈ log, e.file_id = it.1 → e.status = "error") → it ∈ items →
      it ∈ attemptedItems true (load_processed_ids log) items) := by
  have hmem := load_processed_ids_mem log
  have hskip : it ∈ skippedItems true (load_processed_ids log) items ↔
      it ∈ items ∧ ∃ e ∈ log, e.file_id = it.1 ∧ e.status = "ok" := by
    unfold skippedItems
    simp only [List.mem_filter, decide_eq_true_eq, true_and]
    rw [hmem it.1]
  have hatt : it ∈ attemptedItems true (load_processed_ids log) items ↔
      it ∈ items ∧ ¬ ∃ e ∈ log, e.file_id = it.1 ∧ e.status = "ok" := by
    unfold attemptedItems
    simp only [List.mem_filter, decide_eq_true_eq, true_and]
    rw [hmem it.1]
  refine ⟨hmem id, hskip, hatt, fun hall hin => ?_⟩
  refine hatt.mpr ⟨hin, ?_⟩
  rintro ⟨e, he, hid, hok⟩
  have := hall e he hid
  rw [hok] at this
  exact absurd this (by decide)

theorem C3_witness :
    ((⟨"a", "err"⟩ : LogEntry).file_id ∈
        load_processed_ids [⟨"a", "error"⟩, ⟨"b", "ok"⟩] ↔
      ∃ e ∈ ([⟨"a", "error"⟩, ⟨"b", "ok"⟩] : List LogEntry),
        e.file_id = "a" ∧ e.status = "ok") ∧
      ("a", (none : Option Row)) ∈
        attemptedItems true
          (load_processed_ids [⟨"a", "error"⟩, ⟨"b", "ok"⟩])
          [("a", none)] := by
  have h := C3_resume_law [⟨"a", "error"⟩, ⟨"b", "ok"⟩] [("a", none)] "a"
    ("a", none)
  exact ⟨h.1, h.2.2.2 (by decide) (by decide)⟩

/-- Size evolution of the buffer and the flushed batches over a run of
successful items, as a function of the item count only. -/
def sizeRun (buf : ℕ) (fl : List ℕ) : ℕ → ℕ × List ℕ
  | 0 => (buf, fl)
  | n + 1 =>
    if 25 ≤ buf + 1 then sizeRun 0 (fl ++ [buf + 1]) n
    else sizeRun (buf + 1) fl n

theorem runItems_size (items : List (String × Option Row))
    (hok : ∀ it ∈ items, it.2 ≠ none) (s : RunState) :
    ((runItems s items).buffer.length,
      (runItems s items).flushes.map List.length) =
      sizeRun s.buffer.length (s.flushes.map List.length) items.length := by
  induction items generalizing s with
  | nil => rfl
  | cons it rest ih =>
    have hit : it.2 ≠ none := hok it (by simp)
    cases ho : it.2 with
    | none => exact absurd ho hit
    | some row =>
      have hrest : ∀ x ∈ rest, x.2 ≠ none := fun x hx => hok x (by simp [hx])
      rw [List.length_cons, sizeRun]
      show ((runItems (stepItem s it) rest).buffer.length,
        (runItems (stepItem s it) rest).flushes.map List.length) = _
      unfold stepItem
      rw [ho]
      dsimp only
      by_cases hb : 25 ≤ (s.buffer ++ [row]).length
      · rw [if_pos hb, ih hrest _]
        rw [if_pos (by simpa using hb)]
        simp
      · rw [if_neg hb, ih hrest _]
        rw [if_neg (by simpa using hb)]
        simp

theorem finishRun_flushes (s : RunState) (h : s.buffer ≠ []) :
    (finishRun s).flushes = s.flushes ++ [s.buffer] ∧
      (finishRun s).buffer = [] := by
  unfold finishRun
  rw [if_neg h]
  exact ⟨rfl, rfl⟩

/-- C8: a run of 30 items that all complete successfully performs exactly
two flushes, of sizes 25 and 5; the first happens inside the loop (the
loop alone has flushed exactly one batch of 25), the second is the
end-of-run flush of the remaining buffer; and a step of the loop shrinks
the buffer only by recording a flush. -/
theorem C8_batch_flushes (items : List (String × Option Row))
    (h30 : items.length = 30) (hok : ∀ it ∈ items, it.2 ≠ none) :
    ((runItems initState items).flushes).map List.length = [25] ∧
    ((mainLoop false [] items).flushes).map List.length = [25, 5] ∧
    (∀ s it, (stepItem s it).buffer.length < s.buffer.length →
      (stepItem s it).flushes.length = s.flushes.length + 1) := by
  have hsize := runItems_size items hok initState
  rw [h30] at hsize
  have hpair : ((runItems initState items).buffer.length,
      (runItems initState items).flushes.map List.length) = (5, [25]) := by
    rw [hsize]; decide
  have hbuf : (runItems initState items).buffer.length = 5 :=
    congrArg Prod.fst hpair
  have hfl : (runItems initState items).flushes.map List.length = [25] :=
    congrArg Prod.snd hpair
  have hne : (runItems initState items).buffer ≠ [] := by
    intro hnil; rw [hnil] at hbuf; simp at hbuf
  have hatt : attemptedItems false [] items = items := by
    unfold attemptedItems
    apply List.filter_eq_self.mpr
    intro a _; simp
  refine ⟨hfl, ?_, ?_⟩
  · unfold mainLoop
    rw [hatt, (finishRun_flushes _ hne).1]
    rw [List.map_append, hfl]
    simp only [List.map_cons, List.map_nil]
    rw [hbuf]
    rfl
  · intro s it
    cases ho : it.2 with
    | none =>
      unfold stepItem; rw [ho]; dsimp only
      intro hlt; exact absurd hlt (by simp)
    | some row =>
      unfold stepItem; rw [ho]; dsimp only
      by_cases hb : 25 ≤ (s.buffer ++ [row]).length
      · rw [if_pos hb]
        intro _; simp
      · rw [if_neg hb]
        intro hlt
        exact absurd hlt (by simp)

theorem C8_witness :
    ((mainLoop false []
        (List.replicate 30 ("f", some ⟨"f", "", "", "", "", "", "", "", "",
          "", "", "", "", "", "", "", ""⟩))).flushes).map List.length =
      [25, 5] :=
  (C8_batch_flushes _ (by simp) (by
    intro it hit
    rw [List.eq_of_mem_replicate hit]
    simp)).2.1

/-- The outcome of process_one_image for the purposes of the run loop
(src lines 802-836): in interactive mode a declined final confirmation
raises, i.e. the item yields no row; otherwise the built row is
returned. -/
def process_one_image_result (row : Row) (interactive confirm : Bool) :
    Option Row :=
  if interactive ∧ confirm = false then none else some row

/-- C9: an operator declining the final confirmation makes the item fail;
a failed item appends exactly one "error" entry for its identity, leaves
the output buffer and the flushed batches unchanged, and the loop simply
continues with the remaining items. -/
theorem C9_error_isolation (s : RunState) (id : String) (row : Row)
    (rest : List (String × Option Row)) :
    process_one_image_result row true false = none ∧
    (stepItem s (id, none)).log = s.log ++ [⟨id, "error"⟩] ∧
    (stepItem s (id, none)).buffer = s.buffer ∧
    (stepItem s (id, none)).flushes = s.flushes ∧
    runItems s ((id, none) :: rest) =
      runItems ⟨s.buffer, s.flushes, s.log ++ [⟨id, "error"⟩]⟩ rest :=
  ⟨rfl, rfl, rfl, rfl, rfl⟩

/-! ## Date extraction
(src lines 102-107, DATE_PATTERNS and MONTH_MAP; src lines 531-547,
normalize_date_to_ymd)

The three date regexes are embedded as scanners with the leftmost-match,
ordered-alternation and lookaround behaviour of the source patterns. -/

/-- The year group 19dd or 20dd. -/
def isYearChars (l : List Char) : Bool :=
  match l with
  | [a, b, c, d] =>
    ((a = '1' ∧ b = '9') ∨ (a = '2' ∧ b = '0')) ∧ c.isDigit ∧ d.isDigit
  | _ => false

/-- The two-digit month group 0[1-9]|1[0-2] of the ISO pattern. -/
def isMonth2 (l : List Char) : Bool :=
  match l with
  | [a, b] =>
    (a = '0' ∧ b.isDigit ∧ b ≠ '0') ∨ (a = '1' ∧ (b = '0' ∨ b = '1' ∨ b = '2'))
  | _ => false

/-- The two-digit day group 0[1-9]|[12]d|3[01] of the ISO pattern. -/
def isDay2 (l : List Char) : Bool :=
  match l with
  | [a, b] =>
    (a = '0' ∧ b.isDigit ∧ b ≠ '0') ∨ ((a = '1' ∨ a = '2') ∧ b.isDigit) ∨
      (a = '3' ∧ (b = '0' ∨ b = '1'))
  | _ => false

/-- Match of the first (ISO) date pattern anchored at the head, given
whether the previous character was a digit; yields (year, month, day)
group strings. -/
def p1At (prevD : Bool) (l : List Char) :
    Option (List Char × List Char × List Char) :=
  match l with
  | y1 :: y2 :: y3 :: y4 :: s1 :: m1 :: m2 :: s2 :: d1 :: d2 :: rest =>
    if prevD = false ∧ s1 = '-' ∧ s2 = '-' ∧ isYearChars [y1, y2, y3, y4] ∧
        isMonth2 [m1, m2] ∧ isDay2 [d1, d2] ∧
        (rest = [] ∨ (rest.headD ' ').isDigit = false) then
      some ([y1, y2, y3, y4], [m1, m2], [d1, d2])
    else none
  | _ => none

def scanP1 : Bool → List Char → Option (List Char × List Char × List Char)
  | _, [] => none
  | prevD, c :: cs =>
    match p1At prevD (c :: cs) with
    | some r => some r
    | none => scanP1 c.isDigit cs

/-- The candidate matches, in the order the regex alternation tries them,
of the one-or-two-digit month group 0?[1-9]|1[0-2]; each candidate comes
with the remainder of the input. -/
def monthOpts : List Char → List (List Char × List Char)
  | [] => []
  | [c] => if c.isDigit ∧ c ≠ '0' then [([c], [])] else []
  | c :: x :: rest =>
    if c = '0' then (if x.isDigit ∧ x ≠ '0' then [(['0', x], rest)] else [])
    else if c = '1' then
      (['1'], x :: rest) ::
        (if x = '0' ∨ x = '1' ∨ x = '2' then [(['1', x], rest)] else [])
    else if c.isDigit ∧ c ≠ '0' then [([c], x :: rest)] else []

/-- The candidate matches, in alternation order, of the one-or-two-digit
day group 0?[1-9]|[12]d|3[01]. -/
def dayOpts : List Char → List (List Char × List Char)
  | [] => []
  | [c] => if c.isDigit ∧ c ≠ '0' then [([c], [])] else []
  | c :: x :: rest =>
    if c = '0' then (if x.isDigit ∧ x ≠ '0' then [(['0', x], rest)] else [])
    else if c = '1' ∨ c = '2' then
      ([c], x :: rest) :: (if x.isDigit then [([c, x], rest)] else [])
    else if c = '3' then
      ([c], x :: rest) :: (if x = '0' ∨ x = '1' then [([c, x], rest)] else [])
    else if c.isDigit ∧ c ≠ '0' then [([c], x :: rest)] else []

/-- The separator class of the second pattern: dash or slash. -/
def sepDash (c : Char) : Bool := c = '-' ∨ c = '/'

/-- The tail sep-day-sep-year of the second (M/D/YYYY) pattern, after a
chosen month group, with the trailing no-digit lookahead. -/
def p2YearTail (m dc : List Char) : List Char →
    Option (List Char × List Char × List Char)
  | s2 :: y1 :: y2 :: y3 :: y4 :: rest =>
    if sepDash s2 ∧ isYearChars [y1, y2, y3, y4] ∧
        (rest = [] ∨ (rest.headD ' ').isDigit = false) then
      some ([y1, y2, y3, y4], m, dc)
    else none
  | _ => none

def p2Day (m : List Char) (l : List Char) :
    Option (List Char × List Char × List Char) :=
  (dayOpts l).findSome? (fun dr => p2YearTail m dr.1 dr.2)

/-- The part of the second pattern after a chosen month group: separator,
then the day-year tail. -/
def p2MonthTail (m : List Char) : List Char →
    Option (List Char × List Char × List Char)
  | s1 :: r2 => if sepDash s1 then p2Day m r2 else none
  | [] => none

/-- Match of the second date pattern anchored at the head. -/
def p2At (prevD : Bool) (l : List Char) :
    Option (List Char × List Char × List Char) :=
  if prevD then none
  else (monthOpts l).findSome? (fun mr => p2MonthTail mr.1 mr.2)

def scanP2 : Bool → List Char → Option (List Char × List Char × List Char)
  | _, [] => none
  | prevD, c :: cs =>
    match p2At prevD (c :: cs) with
    | some r => some r
    | none => scanP2 c.isDigit cs

/-- The three-letter month prefixes of the third pattern's alternation.
The Sept alternative of the source pattern is unreachable: Sep precedes it
and consumes the same characters together with the trailing letter
run. -/
def monthNames : List (List Char) :=
  ["JAN".data, "FEB".data, "MAR".data, "APR".data, "MAY".data, "JUN".data,
   "JUL".data, "AUG".data, "SEP".data, "OCT".data, "NOV".data, "DEC".data]

/-- Case-insensitive match of a month-name prefix; yields the three
matched characters as they stand in the text, and the remainder. -/
def matchMonthName (l : List Char) : Option (List Char × List Char) :=
  match l with
  | a :: b :: c :: rest =>
    if [a, b, c].map Char.toUpper ∈ monthNames then some ([a, b, c], rest)
    else none
  | _ => none

/-- After the month name: the letter run [a-z]* (case-insensitive), one or
more whitespace characters, the year group, and the no-word lookahead. -/
def p3YearAt (mon dc : List Char) : List Char →
    Option (List Char × List Char × List Char)
  | y1 :: y2 :: y3 :: y4 :: rest =>
    if isYearChars [y1, y2, y3, y4] ∧
        (rest = [] ∨ isWordChar (rest.headD ' ') = false) then
      some ([y1, y2, y3, y4], mon, dc)
    else none
  | _ => none

def p3Tail (d mon : List Char) (l : List Char) :
    Option (List Char × List Char × List Char) :=
  if (l.dropWhile Char.isAlpha).takeWhile pyWs = [] then none
  else p3YearAt mon d ((l.dropWhile Char.isAlpha).dropWhile pyWs)

/-- Match of the third (D Month YYYY) pattern anchored at the head, given
whether the previous character was a word character; yields
(year, month-name group, day). -/
def p3MonthTail (dc : List Char) : List Char →
    Option (List Char × List Char × List Char)
  | w :: r2 =>
    if pyWs w then
      match matchMonthName ((w :: r2).dropWhile pyWs) with
      | some mr => p3Tail dc mr.1 mr.2
      | none => none
    else none
  | [] => none

def p3At (prevW : Bool) (l : List Char) :
    Option (List Char × List Char × List Char) :=
  if prevW then none
  else (dayOpts l).findSome? (fun dr => p3MonthTail dr.1 dr.2)

def scanP3 : Bool → List Char → Option (List Char × List Char × List Char)
  | _, [] => none
  | prevW, c :: cs =>
    match p3At prevW (c :: cs) with
    | some r => some r
    | none => scanP3 (isWordChar c) cs

/-- Embeds MONTH_MAP (src line 107). -/
def MONTH_MAP : List (String × String) :=
  [("JAN", "01"), ("FEB", "02"), ("MAR", "03"), ("APR", "04"), ("MAY", "05"),
   ("JUN", "06"), ("JUL", "07"), ("AUG", "08"), ("SEP", "09"), ("SEPT", "09"),
   ("OCT", "10"), ("NOV", "11"), ("DEC", "12")]

/-- The month-name processing of normalize_date_to_ymd: upper-case, cut to
four characters, drop dots, then look the result up in MONTH_MAP (first
as-is, then cut to three characters); empty when absent. -/
def monthLookup (mon : List Char) : List Char :=
  match MONTH_MAP.lookup
      (⟨((mon.map Char.toUpper).take 4).filter (fun c => c ≠ '.')⟩ : String) with
  | some v => v.data
  | none =>
    match MONTH_MAP.lookup
        (⟨(((mon.map Char.toUpper).take 4).filter (fun c => c ≠ '.')).take 3⟩ :
          String) with
    | some v => v.data
    | none => []

/-- Python str.zfill(2) on a digit group. -/
def zfill2 (l : List Char) : List Char :=
  if 2 ≤ l.length then l else List.replicate (2 - l.length) '0' ++ l

/-- The canonical output shape y/m/d. -/
def renderYMD (y m d : List Char) : String := ⟨y ++ '/' :: (m ++ '/' :: d)⟩

/-- The shared group processing of patterns 1 and 2 in
normalize_date_to_ymd: zero-pad month and day, emit y/m/d when all groups
are non-empty. -/
def tryPat12 (r : Option (List Char × List Char × List Char)) :
    Option String :=
  match r with
  | some (y, m, d) =>
    if y ≠ [] ∧ m ≠ [] ∧ d ≠ [] then some (renderYMD y (zfill2 m) (zfill2 d))
    else none
  | none => none

/-- The group processing of pattern 3: the month name goes through
MONTH_MAP. -/
def tryPat3 (r : Option (List Char × List Char × List Char)) :
    Option String :=
  match r with
  | some (y, mon, d) =>
    if y ≠ [] ∧ monthLookup mon ≠ [] ∧ d ≠ [] then
      some (renderYMD y (monthLookup mon) (zfill2 d))
    else none
  | none => none

/-- Embeds normalize_date_to_ymd: the three patterns are tried in their
fixed order and the first one that matches (and yields the needed groups)
produces the canonical zero-padded Y/M/D string; otherwise the empty
string. -/
def normalize_date_to_ymd (text : String) : String :=
  (((tryPat12 (scanP1 false text.data)).orElse
      (fun _ => tryPat12 (scanP2 false text.data))).orElse
    (fun _ => tryPat3 (scanP3 false text.data))).getD ""

/-- Numeric value of a digit character. -/
def digitVal (c : Char) : ℕ := c.toNat - 48

def natOfDigits (l : List Char) : ℕ :=
  l.foldl (fun n c => 10 * n + digitVal c) 0

/-- The year field of a rendered Y/M/D string. -/
def yearOf (s : String) : ℕ := natOfDigits (s.data.take 4)

theorem digit_toNat_bounds (c : Char) (h : c.isDigit = true) :
    48 ≤ c.toNat ∧ c.toNat ≤ 57 := by
  simp only [Char.isDigit, Bool.and_eq_true, decide_eq_true_eq] at h
  obtain ⟨h1, h2⟩ := h
  rw [ge_iff_le, UInt32.le_def, BitVec.le_def] at h1
  rw [UInt32.le_def, BitVec.le_def] at h2
  exact ⟨h1, h2⟩

theorem findSome?_mem {α β : Type} (f : α → Option β) (l : List α) (b : β)
    (h : l.findSome? f = some b) : ∃ a ∈ l, f a = some b := by
  induction l with
  | nil => simp [List.findSome?] at h
  | cons a as ih =>
    rw [List.findSome?] at h
    cases hf : f a with
    | some b2 =>
      rw [hf] at h
      simp at h
      exact ⟨a, by simp, by rw [hf, h]⟩
    | none =>
      rw [hf] at h
      obtain ⟨x, hx, hfx⟩ := ih h
      exact ⟨x, by simp [hx], hfx⟩

/-- A digit group of one or two characters. -/
def digits12 (l : List Char) : Bool :=
  l ≠ [] ∧ l.length ≤ 2 ∧ l.all Char.isDigit

theorem digits12_single (c : Char) (h : c.isDigit = true) :
    digits12 [c] = true := by simp [digits12, h]

theorem digits12_pair (a b : Char) (ha : a.isDigit = true)
    (hb : b.isDigit = true) : digits12 [a, b] = true := by
  simp [digits12, ha, hb]

theorem monthOpts_digits (cs : List Char) (mr : List Char × List Char)
    (h : mr ∈ monthOpts cs) : digits12 mr.1 = true := by
  rcases cs with _ | ⟨c, _ | ⟨x, rest⟩⟩
  · simp [monthOpts] at h
  · rw [monthOpts] at h
    by_cases h1 : c.isDigit ∧ c ≠ '0'
    · rw [if_pos h1] at h
      simp at h
      rw [h]
      exact digits12_single c h1.1
    · rw [if_neg h1] at h; simp at h
  · rw [monthOpts] at h
    by_cases h0 : c = '0'
    · rw [if_pos h0] at h
      by_cases hx : x.isDigit ∧ x ≠ '0'
      · rw [if_pos hx] at h
        simp at h
        rw [h]
        exact digits12_pair '0' x (by decide) hx.1
      · rw [if_neg hx] at h; simp at h
    · rw [if_neg h0] at h
      by_cases h1 : c = '1'
      · rw [if_pos h1] at h
        subst h1
        by_cases hx : x = '0' ∨ x = '1' ∨ x = '2'
        · rw [if_pos hx] at h
          simp at h
          rcases h with h | h <;> rw [h]
          · exact digits12_single '1' (by decide)
          · refine digits12_pair '1' x (by decide) ?_
            rcases hx with hx | hx | hx <;> subst hx <;> decide
        · rw [if_neg hx] at h
          simp at h
          rw [h]
          exact digits12_single '1' (by decide)
      · rw [if_neg h1] at h
        by_cases h2 : c.isDigit ∧ c ≠ '0'
        · rw [if_pos h2] at h
          simp at h
          rw [h]
          exact digits12_single c h2.1
        · rw [if_neg h2] at h; simp at h

theorem dayOpts_digits (cs : List Char) (dr : List Char × List Char)
    (h : dr ∈ dayOpts cs) : digits12 dr.1 = true := by
  rcases cs with _ | ⟨c, _ | ⟨x, rest⟩⟩
  · simp [dayOpts] at h
  · rw [dayOpts] at h
    by_cases h1 : c.isDigit ∧ c ≠ '0'
    · rw [if_pos h1] at h
      simp at h
      rw [h]
      exact digits12_single c h1.1
    · rw [if_neg h1] at h; simp at h
  · rw [dayOpts] at h
    by_cases h0 : c = '0'
    · rw [if_pos h0] at h
      by_cases hx : x.isDigit ∧ x ≠ '0'
      · rw [if_pos hx] at h
        simp at h
        rw [h]
        exact digits12_pair '0' x (by decide) hx.1
      · rw [if_neg hx] at h; simp at h
    · rw [if_neg h0] at h
      by_cases h12 : c = '1' ∨ c = '2'
      · rw [if_pos h12] at h
        have hcd : c.isDigit = true := by
          rcases h12 with h12 | h12 <;> subst h12 <;> decide
        by_cases hx : x.isDigit
        · rw [if_pos hx] at h
          simp at h
          rcases h with h | h <;> rw [h]
          · exact digits12_single c hcd
          · exact digits12_pair c x hcd hx
        · rw [if_neg hx] at h
          simp at h
          rw [h]
          exact digits12_single c hcd
      · rw [if_neg h12] at h
        by_cases h3 : c = '3'
        · rw [if_pos h3] at h
          subst h3
          by_cases hx : x = '0' ∨ x = '1'
          · rw [if_pos hx] at h
            simp at h
            rcases h with h | h <;> rw [h]
            · exact digits12_single '3' (by decide)
            · refine digits12_pair '3' x (by decide) ?_
              rcases hx with hx | hx <;> subst hx <;> decide
          · rw [if_neg hx] at h
            simp at h
            rw [h]
            exact digits12_single '3' (by decide)
        · rw [if_neg h3] at h
          by_cases h4 : c.isDigit ∧ c ≠ '0'
          · rw [if_pos h4] at h
            simp at h
            rw [h]
            exact digits12_single c h4.1
          · rw [if_neg h4] at h; simp at h

theorem year_facts (y : List Char) (h : isYearChars y = true) :
    y.length = 4 ∧ y.all Char.isDigit = true ∧
      1900 ≤ natOfDigits y ∧ natOfDigits y ≤ 2099 := by
  rcases y with _ | ⟨a, _ | ⟨b, _ | ⟨c, _ | ⟨d, tl⟩⟩⟩⟩
  · simp [isYearChars] at h
  · simp [isYearChars] at h
  · simp [isYearChars] at h
  · simp [isYearChars] at h
  rcases tl with _ | ⟨e, tl⟩
  · simp only [isYearChars, decide_eq_true_eq] at h
    obtain ⟨hab, hc, hd⟩ := h
    obtain ⟨hc1, hc2⟩ := digit_toNat_bounds c hc
    obtain ⟨hd1, hd2⟩ := digit_toNat_bounds d hd
    have hval : natOfDigits [a, b, c, d] =
        1000 * digitVal a + 100 * digitVal b + 10 * digitVal c + digitVal d := by
      simp [natOfDigits, digitVal]
      ring
    have habd : a.isDigit = true ∧ b.isDigit = true := by
      rcases hab with ⟨ha, hb⟩ | ⟨ha, hb⟩ <;> subst ha <;> subst hb <;>
        exact ⟨by decide, by decide⟩
    refine ⟨rfl, by simp [habd.1, habd.2, hc, hd], ?_, ?_⟩
    · rcases hab with ⟨ha, hb⟩ | ⟨ha, hb⟩ <;> subst ha <;> subst hb <;>
        rw [hval] <;>
        simp only [digitVal, show ('1' : Char).toNat = 49 from by decide,
          show ('9' : Char).toNat = 57 from by decide,
          show ('2' : Char).toNat = 50 from by decide,
          show ('0' : Char).toNat = 48 from by decide] <;>
        omega
    · rcases hab with ⟨ha, hb⟩ | ⟨ha, hb⟩ <;> subst ha <;> subst hb <;>
        rw [hval] <;>
        simp only [digitVal, show ('1' : Char).toNat = 49 from by decide,
          show ('9' : Char).toNat = 57 from by decide,
          show ('2' : Char).toNat = 50 from by decide,
          show ('0' : Char).toNat = 48 from by decide] <;>
        omega
  · simp [isYearChars] at h

theorem isMonth2_shape (m : List Char) (h : isMonth2 m = true) :
    m.length = 2 ∧ m.all Char.isDigit = true := by
  rcases m with _ | ⟨a, _ | ⟨b, tl⟩⟩
  · simp [isMonth2] at h
  · simp [isMonth2] at h
  rcases tl with _ | ⟨c, tl⟩
  · simp only [isMonth2, decide_eq_true_eq] at h
    refine ⟨rfl, ?_⟩
    rcases h with ⟨ha, hb, _⟩ | ⟨ha, hb⟩
    · subst ha; simp [hb]
    · subst ha
      rcases hb with hb | hb | hb <;> subst hb <;> decide
  · simp [isMonth2] at h

theorem isDay2_shape (d : List Char) (h : isDay2 d = true) :
    d.length = 2 ∧ d.all Char.isDigit = true := by
  rcases d with _ | ⟨a, _ | ⟨b, tl⟩⟩
  · simp [isDay2] at h
  · simp [isDay2] at h
  rcases tl with _ | ⟨c, tl⟩
  · simp only [isDay2, decide_eq_true_eq] at h
    refine ⟨rfl, ?_⟩
    rcases h with ⟨ha, hb, _⟩ | ⟨ha, hb⟩ | ⟨ha, hb⟩
    · subst ha; simp [hb]
    · rcases ha with ha | ha <;> subst ha <;> simp [hb]
    · subst ha
      rcases hb with hb | hb <;> subst hb <;> decide
  · simp [isDay2] at h

theorem zfill2_shape (l : List Char) (h : digits12 l = true) :
    (zfill2 l).length = 2 ∧ (zfill2 l).all Char.isDigit = true := by
  simp only [digits12, decide_eq_true_eq] at h
  obtain ⟨hne, hlen, hall⟩ := h
  rcases l with _ | ⟨a, _ | ⟨b, tl⟩⟩
  · exact absurd rfl hne
  · simp at hall
    refine ⟨by simp [zfill2], ?_⟩
    simp [zfill2, hall]
  · rcases tl with _ | ⟨c, tl⟩
    · simp at hall
      refine ⟨by simp [zfill2], ?_⟩
      simp [zfill2, hall.1, hall.2]
    · simp at hlen

theorem lookup_mem_values (l : List (String × String)) (k v : String)
    (h : l.lookup k = some v) : v ∈ l.map Prod.snd := by
  induction l with
  | nil => simp [List.lookup] at h
  | cons p rest ih =>
    obtain ⟨pk, pv⟩ := p
    rw [List.lookup] at h
    cases hk : (k == pk) with
    | true =>
      rw [hk] at h
      simp at h
      simp [h]
    | false =>
      rw [hk] at h
      rw [List.map_cons]
      exact List.mem_cons_of_mem _ (ih h)

theorem month_map_value_shape (k v : String) (h : MONTH_MAP.lookup k = some v) :
    v.data.length = 2 ∧ v.data.all Char.isDigit = true := by
  have hv := lookup_mem_values MONTH_MAP k v h
  have hall : ∀ x ∈ MONTH_MAP.map Prod.snd,
      x.data.length = 2 ∧ x.data.all Char.isDigit = true := by decide
  exact hall v hv

theorem monthLookup_shape (mon : List Char) (h : monthLookup mon ≠ []) :
    (monthLookup mon).length = 2 ∧ (monthLookup mon).all Char.isDigit = true := by
  unfold monthLookup at h ⊢
  cases h1 : MONTH_MAP.lookup
      (⟨((mon.map Char.toUpper).take 4).filter (fun c => c ≠ '.')⟩ : String) with
  | some v =>
    rw [h1] at h
    dsimp only at h ⊢
    exact month_map_value_shape _ v h1
  | none =>
    rw [h1] at h
    dsimp only at h ⊢
    cases h2 : MONTH_MAP.lookup
        (⟨(((mon.map Char.toUpper).take 4).filter (fun c => c ≠ '.')).take 3⟩ :
          String) with
    | some v =>
      rw [h2] at h
      dsimp only at h ⊢
      exact month_map_value_shape _ v h2
    | none =>
      rw [h2] at h
      exact absurd rfl h

theorem p1At_sound (b : Bool) (l y m d : List Char)
    (h : p1At b l = some (y, m, d)) :
    isYearChars y = true ∧ isMonth2 m = true ∧ isDay2 d = true := by
  rcases l with _|⟨c1,_|⟨c2,_|⟨c3,_|⟨c4,_|⟨c5,_|⟨c6,_|⟨c7,_|⟨c8,_|⟨c9,_|⟨c10,rest⟩⟩⟩⟩⟩⟩⟩⟩⟩⟩
  · simp [p1At] at h
  · simp [p1At] at h
  · simp [p1At] at h
  · simp [p1At] at h
  · simp [p1At] at h
  · simp [p1At] at h
  · simp [p1At] at h
  · simp [p1At] at h
  · simp [p1At] at h
  · simp [p1At] at h
  simp only [p1At] at h
  split_ifs at h with hc
  simp only [Option.some.injEq, Prod.mk.injEq] at h
  obtain ⟨hy, hm, hd⟩ := h
  subst hy; subst hm; subst hd
  exact ⟨hc.2.2.2.1, hc.2.2.2.2.1, hc.2.2.2.2.2.1⟩

theorem scanP1_sound (l : List Char) (b : Bool) (y m d : List Char)
    (h : scanP1 b l = some (y, m, d)) :
    isYearChars y = true ∧ isMonth2 m = true ∧ isDay2 d = true := by
  induction l generalizing b with
  | nil => simp [scanP1] at h
  | cons c cs ih =>
    rw [scanP1] at h
    cases hp : p1At b (c :: cs) with
    | some r =>
      rw [hp] at h
      simp at h
      rw [h] at hp
      exact p1At_sound b _ y m d hp
    | none =>
      rw [hp] at h
      exact ih c.isDigit h

theorem p2YearTail_sound (m dc l y m2 d : List Char)
    (h : p2YearTail m dc l = some (y, m2, d)) :
    isYearChars y = true ∧ m2 = m ∧ d = dc := by
  rcases l with _|⟨s2,_|⟨y1,_|⟨y2,_|⟨y3,_|⟨y4,r⟩⟩⟩⟩⟩
  · simp [p2YearTail] at h
  · simp [p2YearTail] at h
  · simp [p2YearTail] at h
  · simp [p2YearTail] at h
  · simp [p2YearTail] at h
  simp only [p2YearTail] at h
  split_ifs at h with hc
  simp only [Option.some.injEq, Prod.mk.injEq] at h
  obtain ⟨hy, hm, hd⟩ := h
  subst hy; subst hm; subst hd
  exact ⟨hc.2.1, rfl, rfl⟩

theorem p2Day_sound (m l y m2 d : List Char)
    (h : p2Day m l = some (y, m2, d)) :
    isYearChars y = true ∧ m2 = m ∧ digits12 d = true := by
  obtain ⟨dr, hmem, hf⟩ := findSome?_mem _ _ _ h
  obtain ⟨dc, rest⟩ := dr
  have hdig : digits12 dc = true := dayOpts_digits l (dc, rest) hmem
  dsimp only at hf
  obtain ⟨hy, hm, hd⟩ := p2YearTail_sound m dc rest y m2 d hf
  exact ⟨hy, hm, hd ▸ hdig⟩

theorem p2At_sound (b : Bool) (l y m d : List Char)
    (h : p2At b l = some (y, m, d)) :
    isYearChars y = true ∧ digits12 m = true ∧ digits12 d = true := by
  unfold p2At at h
  split_ifs at h with hb
  obtain ⟨mr, hmem, hf⟩ := findSome?_mem _ _ _ h
  obtain ⟨mc, rest⟩ := mr
  have hdig : digits12 mc = true := monthOpts_digits l (mc, rest) hmem
  dsimp only at hf
  rcases rest with _ | ⟨s1, r2⟩
  · simp [p2MonthTail] at hf
  · rw [p2MonthTail] at hf
    split_ifs at hf with hs
    obtain ⟨hy, hm2, hd⟩ := p2Day_sound mc r2 y m d hf
    exact ⟨hy, hm2 ▸ hdig, hd⟩

theorem scanP2_sound (l : List Char) (b : Bool) (y m d : List Char)
    (h : scanP2 b l = some (y, m, d)) :
    isYearChars y = true ∧ digits12 m = true ∧ digits12 d = true := by
  induction l generalizing b with
  | nil => simp [scanP2] at h
  | cons c cs ih =>
    rw [scanP2] at h
    cases hp : p2At b (c :: cs) with
    | some r =>
      rw [hp] at h
      simp at h
      rw [h] at hp
      exact p2At_sound b _ y m d hp
    | none =>
      rw [hp] at h
      exact ih c.isDigit h

theorem p3YearAt_sound (mon dc l y mon2 d2 : List Char)
    (h : p3YearAt mon dc l = some (y, mon2, d2)) :
    isYearChars y = true ∧ mon2 = mon ∧ d2 = dc := by
  rcases l with _|⟨y1,_|⟨y2,_|⟨y3,_|⟨y4,r⟩⟩⟩⟩
  · simp [p3YearAt] at h
  · simp [p3YearAt] at h
  · simp [p3YearAt] at h
  · simp [p3YearAt] at h
  simp only [p3YearAt] at h
  split_ifs at h with hc
  simp only [Option.some.injEq, Prod.mk.injEq] at h
  obtain ⟨hy, hm, hd⟩ := h
  subst hy; subst hm; subst hd
  exact ⟨hc.1, rfl, rfl⟩

theorem p3Tail_sound (d mon l y mon2 d2 : List Char)
    (h : p3Tail d mon l = some (y, mon2, d2)) :
    isYearChars y = true ∧ mon2 = mon ∧ d2 = d := by
  unfold p3Tail at h
  split_ifs at h with h1
  exact p3YearAt_sound mon d _ y mon2 d2 h

theorem p3MonthTail_sound (dc l y mon d : List Char)
    (h : p3MonthTail dc l = some (y, mon, d)) :
    isYearChars y = true ∧ d = dc := by
  rcases l with _ | ⟨w, r2⟩
  · simp [p3MonthTail] at h
  · rw [p3MonthTail] at h
    split_ifs at h with hw
    cases hm : matchMonthName ((w :: r2).dropWhile pyWs) with
    | some mr =>
      rw [hm] at h
      dsimp only at h
      obtain ⟨hy, hmon, hd⟩ := p3Tail_sound dc mr.1 mr.2 y mon d h
      exact ⟨hy, hd⟩
    | none =>
      rw [hm] at h
      simp at h

theorem p3At_sound (b : Bool) (l y mon d : List Char)
    (h : p3At b l = some (y, mon, d)) :
    isYearChars y = true ∧ digits12 d = true := by
  unfold p3At at h
  split_ifs at h with hb
  obtain ⟨dr, hmem, hf⟩ := findSome?_mem _ _ _ h
  obtain ⟨dc, rest⟩ := dr
  have hdig : digits12 dc = true := dayOpts_digits l (dc, rest) hmem
  dsimp only at hf
  obtain ⟨hy, hd⟩ := p3MonthTail_sound dc rest y mon d hf
  exact ⟨hy, hd ▸ hdig⟩

theorem scanP3_sound (l : List Char) (b : Bool) (y mon d : List Char)
    (h : scanP3 b l = some (y, mon, d)) :
    isYearChars y = true ∧ digits12 d = true := by
  induction l generalizing b with
  | nil => simp [scanP3] at h
  | cons c cs ih =>
    rw [scanP3] at h
    cases hp : p3At b (c :: cs) with
    | some r =>
      rw [hp] at h
      simp at h
      rw [h] at hp
      exact p3At_sound b _ y mon d hp
    | none =>
      rw [hp] at h
      exact ih (isWordChar c) h

theorem digits12_ne (l : List Char) (h : digits12 l = true) : l ≠ [] := by
  simp only [digits12, decide_eq_true_eq] at h
  exact h.1

theorem digits12_of_two (l : List Char) (h1 : l.length = 2)
    (h2 : l.all Char.isDigit = true) : digits12 l = true := by
  simp only [digits12, decide_eq_true_eq]
  refine ⟨?_, by omega, h2⟩
  intro hn
  rw [hn] at h1
  simp at h1

theorem year_ne_nil (y : List Char) (h : isYearChars y = true) : y ≠ [] := by
  intro hn
  rw [hn] at h
  simp [isYearChars] at h

/-- The canonical zero-padded Y/M/D output shape, with the year in the
1900-2099 window. -/
def CanonicalYMD (s : String) : Prop :=
  ∃ y m d : List Char, s.data = y ++ '/' :: (m ++ '/' :: d) ∧
    y.length = 4 ∧ y.all Char.isDigit = true ∧
    m.length = 2 ∧ m.all Char.isDigit = true ∧
    d.length = 2 ∧ d.all Char.isDigit = true ∧
    1900 ≤ natOfDigits y ∧ natOfDigits y ≤ 2099 ∧ yearOf s = natOfDigits y

theorem yearOf_render (y m d : List Char) (hy : y.length = 4) :
    yearOf (renderYMD y m d) = natOfDigits y := by
  unfold yearOf renderYMD
  show natOfDigits ((y ++ '/' :: (m ++ '/' :: d)).take 4) = natOfDigits y
  rw [← hy, List.take_left]

theorem render_canonical (y m d : List Char) (hy : isYearChars y = true)
    (hm2 : m.length = 2) (hmd : m.all Char.isDigit = true)
    (hd2 : d.length = 2) (hdd : d.all Char.isDigit = true) :
    CanonicalYMD (renderYMD y m d) := by
  obtain ⟨hy4, hyd, hylo, hyhi⟩ := year_facts y hy
  exact ⟨y, m, d, rfl, hy4, hyd, hm2, hmd, hd2, hdd, hylo, hyhi,
    yearOf_render y m d hy4⟩

theorem chain1 (a : Option String) (f g : Unit → Option String) (x : String)
    (h : a = some x) : ((a.orElse f).orElse g).getD "" = x := by
  rw [h]; rfl

theorem chain2 (f g : Unit → Option String) (x : String)
    (h : f () = some x) :
    (((none : Option String).orElse f).orElse g).getD "" = x := by
  show ((f ()).orElse g).getD "" = x
  rw [h]; rfl

theorem chain3 (f g : Unit → Option String) (x : Option String)
    (hf : f () = none) (h : g () = x) :
    (((none : Option String).orElse f).orElse g).getD "" = x.getD "" := by
  show ((f ()).orElse g).getD "" = x.getD ""
  rw [hf]
  show (g ()).getD "" = x.getD ""
  rw [h]

theorem normalize_of_scanP1 (text : String) (y m d : List Char)
    (hs : scanP1 false text.data = some (y, m, d)) :
    normalize_date_to_ymd text = renderYMD y (zfill2 m) (zfill2 d) := by
  obtain ⟨hy, hm, hd⟩ := scanP1_sound text.data false y m d hs
  obtain ⟨hml, hmd⟩ := isMonth2_shape m hm
  obtain ⟨hdl, hdd⟩ := isDay2_shape d hd
  have hguard : y ≠ [] ∧ m ≠ [] ∧ d ≠ [] :=
    ⟨year_ne_nil y hy, digits12_ne m (digits12_of_two m hml hmd),
     digits12_ne d (digits12_of_two d hdl hdd)⟩
  unfold normalize_date_to_ymd
  rw [hs]
  exact chain1 _ _ _ _ (by simp only [tryPat12]; rw [if_pos hguard])

theorem normalize_of_scanP2 (text : String) (y m d : List Char)
    (hs1 : scanP1 false text.data = none)
    (hs : scanP2 false text.data = some (y, m, d)) :
    normalize_date_to_ymd text = renderYMD y (zfill2 m) (zfill2 d) := by
  obtain ⟨hy, hm, hd⟩ := scanP2_sound text.data false y m d hs
  have hguard : y ≠ [] ∧ m ≠ [] ∧ d ≠ [] :=
    ⟨year_ne_nil y hy, digits12_ne m hm, digits12_ne d hd⟩
  unfold normalize_date_to_ymd
  rw [hs1, hs]
  exact chain2 _ _ _ (by simp only [tryPat12]; rw [if_pos hguard])

theorem normalize_of_none (text : String)
    (hs1 : scanP1 false text.data = none)
    (hs2 : scanP2 false text.data = none)
    (hs3 : scanP3 false text.data = none) :
    normalize_date_to_ymd text = "" := by
  unfold normalize_date_to_ymd
  rw [hs1, hs2, hs3]
  rfl

theorem normalize_date_shape (text : String)
    (h : normalize_date_to_ymd text ≠ "") :
    CanonicalYMD (normalize_date_to_ymd text) := by
  cases hs1 : scanP1 false text.data with
  | some r =>
    obtain ⟨y, m, d⟩ := r
    obtain ⟨hy, hm, hd⟩ := scanP1_sound text.data false y m d hs1
    obtain ⟨hml, hmd⟩ := isMonth2_shape m hm
    obtain ⟨hdl, hdd⟩ := isDay2_shape d hd
    rw [normalize_of_scanP1 text y m d hs1]
    obtain ⟨hm2, hmd2⟩ := zfill2_shape m (digits12_of_two m hml hmd)
    obtain ⟨hd2, hdd2⟩ := zfill2_shape d (digits12_of_two d hdl hdd)
    exact render_canonical y (zfill2 m) (zfill2 d) hy hm2 hmd2 hd2 hdd2
  | none =>
    cases hs2 : scanP2 false text.data with
    | some r =>
      obtain ⟨y, m, d⟩ := r
      obtain ⟨hy, hm, hd⟩ := scanP2_sound text.data false y m d hs2
      rw [normalize_of_scanP2 text y m d hs1 hs2]
      obtain ⟨hm2, hmd2⟩ := zfill2_shape m hm
      obtain ⟨hd2, hdd2⟩ := zfill2_shape d hd
      exact render_canonical y (zfill2 m) (zfill2 d) hy hm2 hmd2 hd2 hdd2
    | none =>
      cases hs3 : scanP3 false text.data with
      | some r =>
        obtain ⟨y, mon, d⟩ := r
        obtain ⟨hy, hd⟩ := scanP3_sound text.data false y mon d hs3
        by_cases hg : y ≠ [] ∧ monthLookup mon ≠ [] ∧ d ≠ []
        · have hres : normalize_date_to_ymd text =
              renderYMD y (monthLookup mon) (zfill2 d) := by
            unfold normalize_date_to_ymd
            rw [hs1, hs2, hs3]
            have := chain3 (fun _ => tryPat12 none)
              (fun _ => tryPat3 (some (y, mon, d)))
              (some (renderYMD y (monthLookup mon) (zfill2 d))) rfl
              (by simp only [tryPat3]; rw [if_pos hg])
            simpa using this
          rw [hres]
          obtain ⟨hmm2, hmmd⟩ := monthLookup_shape mon hg.2.1
          obtain ⟨hd2, hdd2⟩ := zfill2_shape d hd
          exact render_canonical y (monthLookup mon) (zfill2 d) hy hmm2 hmmd
            hd2 hdd2
        · exfalso
          apply h
          unfold normalize_date_to_ymd
          rw [hs1, hs2, hs3]
          have := chain3 (fun _ => tryPat12 none)
            (fun _ => tryPat3 (some (y, mon, d))) none rfl
            (by simp only [tryPat3]; rw [if_neg hg])
          simpa using this
      | none =>
        exact absurd (normalize_of_none text hs1 hs2 hs3) h

theorem p1At_nondigit_head (b : Bool) (c : Char) (cs : List Char)
    (hc : c.isDigit = false) : p1At b (c :: cs) = none := by
  rcases cs with _|⟨c2,_|⟨c3,_|⟨c4,_|⟨c5,_|⟨c6,_|⟨c7,_|⟨c8,_|⟨c9,_|⟨c10,rest⟩⟩⟩⟩⟩⟩⟩⟩⟩
  · rfl
  · rfl
  · rfl
  · rfl
  · rfl
  · rfl
  · rfl
  · rfl
  · rfl
  simp only [p1At]
  rw [if_neg]
  intro hcond
  have hyc := hcond.2.2.2.1
  simp only [isYearChars, decide_eq_true_eq] at hyc
  rcases hyc.1 with ⟨h1, _⟩ | ⟨h1, _⟩ <;> subst h1 <;> simp at hc

theorem scanP1_skip (pre : List Char) (tail : List Char) (b : Bool)
    (hpre : ∀ c ∈ pre, c.isDigit = false) (hb : b = false ∨ pre ≠ []) :
    scanP1 b (pre ++ tail) = scanP1 false tail := by
  induction pre generalizing b with
  | nil =>
    rcases hb with hb | hb
    · subst hb; rfl
    · exact absurd rfl hb
  | cons c pre ih =>
    have hc : c.isDigit = false := hpre c (by simp)
    rw [List.cons_append, scanP1, p1At_nondigit_head _ _ _ hc]
    dsimp only
    rw [hc]
    exact ih false (fun x hx => hpre x (by simp [hx])) (Or.inl rfl)

theorem scanP1_cons_some (c : Char) (cs : List Char)
    (r : List Char × List Char × List Char)
    (hp : p1At false (c :: cs) = some r) : scanP1 false (c :: cs) = some r := by
  rw [scanP1, hp]

theorem p1At_iso (post : List Char) (hpost : ∀ c ∈ post, c.isDigit = false) :
    p1At false ("2021-03-11".data ++ post) =
      some ("2021".data, "03".data, "11".data) := by
  show p1At false
      ('2' :: '0' :: '2' :: '1' :: '-' :: '0' :: '3' :: '-' :: '1' :: '1' ::
        post) = _
  simp only [p1At]
  rw [if_pos]
  refine ⟨trivial, trivial, trivial, by decide, by decide, by decide, ?_⟩
  rcases post with _ | ⟨p, ps⟩
  · exact Or.inl rfl
  · exact Or.inr (by simpa using hpost p (by simp))

theorem scanP1_iso (pre post : List Char)
    (hpre : ∀ c ∈ pre, c.isDigit = false)
    (hpost : ∀ c ∈ post, c.isDigit = false) :
    scanP1 false (pre ++ ("2021-03-11".data ++ post)) =
      some ("2021".data, "03".data, "11".data) := by
  rw [scanP1_skip pre _ false hpre (Or.inl rfl)]
  exact scanP1_cons_some '2'
    ('0' :: '2' :: '1' :: '-' :: '0' :: '3' :: '-' :: '1' :: '1' :: post)
    _ (p1At_iso post hpost)

/-- C7, the claim as frozen, fails on the code: "92021-03-11" contains
"2021-03-11" as a substring, yet the digit lookarounds of the date
patterns reject this digit-adjacent occurrence and date extraction
returns the empty string instead of "2021/03/11". -/
theorem C7_counterexample :
    normalize_date_to_ymd "92021-03-11" = "" ∧
      containsSeg "2021-03-11".data "92021-03-11".data = true ∧
      normalize_date_to_ymd "92021-03-11" ≠ "2021/03/11" := by
  refine ⟨by decide, by decide, by decide⟩

/-- C7 (amended): for every text input, date extraction tries the three
date-shape patterns in their fixed order, the first pattern that matches
anywhere in the text wins, and the non-empty results are canonical
zero-padded Y/M/D strings; in particular a text in which "2021-03-11"
occurs with no digit characters anywhere else yields "2021/03/11"; the
result is the empty string when no pattern matches. -/
theorem C7_date_extraction (text pre post : String)
    (hpre : ∀ c ∈ pre.data, c.isDigit = false)
    (hpost : ∀ c ∈ post.data, c.isDigit = false) :
    normalize_date_to_ymd (pre ++ "2021-03-11" ++ post) = "2021/03/11" ∧
    (normalize_date_to_ymd text ≠ "" →
      CanonicalYMD (normalize_date_to_ymd text)) ∧
    (∀ y m d : List Char, scanP1 false text.data = some (y, m, d) →
      normalize_date_to_ymd text = renderYMD y (zfill2 m) (zfill2 d)) ∧
    (scanP1 false text.data = none → scanP2 false text.data = none →
      scanP3 false text.data = none → normalize_date_to_ymd text = "") := by
  refine ⟨?_, normalize_date_shape text,
    fun y m d hs => normalize_of_scanP1 text y m d hs, normalize_of_none text⟩
  have hdata : (pre ++ "2021-03-11" ++ post).data =
      pre.data ++ ("2021-03-11".data ++ post.data) := by
    rw [String.data_append, String.data_append, List.append_assoc]
  have hscan : scanP1 false (pre ++ "2021-03-11" ++ post).data =
      some ("2021".data, "03".data, "11".data) := by
    rw [hdata]
    exact scanP1_iso pre.data post.data hpre hpost
  rw [normalize_of_scanP1 _ _ _ _ hscan]
  rfl

theorem C7_witness :
    normalize_date_to_ymd ("DATE " ++ "2021-03-11" ++ " END") =
      "2021/03/11" :=
  (C7_date_extraction "x" "DATE " " END" (by decide) (by decide)).1

/-- C10: date extraction returns a non-empty result only for years between
1900 and 2099 inclusive; an otherwise well-formed date outside the range,
such as "1899-12-31" or "2100-01-01", yields the empty string. -/
theorem C10_year_range (text : String) :
    (normalize_date_to_ymd text ≠ "" →
      1900 ≤ yearOf (normalize_date_to_ymd text) ∧
        yearOf (normalize_date_to_ymd text) ≤ 2099) ∧
    normalize_date_to_ymd "1899-12-31" = "" ∧
    normalize_date_to_ymd "2100-01-01" = "" := by
  refine ⟨fun h => ?_, by decide, by decide⟩
  obtain ⟨y, m, d, hdata, hy4, hyd, hm2, hmd, hd2, hdd, hlo, hhi, hyr⟩ :=
    normalize_date_shape text h
  rw [hyr]
  exact ⟨hlo, hhi⟩

theorem C10_witness :
    1900 ≤ yearOf (normalize_date_to_ymd "1999-05-06") ∧
      yearOf (normalize_date_to_ymd "1999-05-06") ≤ 2099 :=
  (C10_year_range "1999-05-06").1 (by decide)

/-! ## Scale extraction (src lines 109-111 SCALE_PATTERNS, 549-554
parse_scale) and OCR anchors (src lines 121-128, 459-472) -/

/-- Match of the scale denominator at a position holding the literal
digit 1: optional whitespace, a colon or slash, optional whitespace, then
one to four digits (greedy).  The optional SCALE prefix of the source
pattern never changes the captured denominator. -/
def scaleAt : List Char → Option (List Char)
  | '1' :: rest =>
    match rest.dropWhile pyWs with
    | c :: r2 =>
      if c = ':' ∨ c = '/' then
        if (r2.dropWhile pyWs).takeWhile Char.isDigit = [] then none
        else some (((r2.dropWhile pyWs).takeWhile Char.isDigit).take 4)
      else none
    | [] => none
  | _ => none

def findScale : List Char → Option (List Char)
  | [] => none
  | c :: cs =>
    match scaleAt (c :: cs) with
    | some den => some den
    | none => findScale cs

/-- Embeds parse_scale: emit "1:denominator" or the empty string. -/
def parse_scale (text : String) : String :=
  match findScale text.data with
  | some den => "1:" ++ (⟨den⟩ : String)
  | none => ""

/-- Embeds OCR_ANCHORS: the word patterns counted by the anchor score. -/
def OCR_ANCHORS : List String := ["COUNTRY", "STATE", "LOCATION", "SCALE", "REGION"]

def matchPrefixList : List Char → List Char → Option (List Char)
  | [], rest => some rest
  | _ :: _, [] => none
  | p :: ps, c :: cs => if p = c then matchPrefixList ps cs else none

/-- Word-bounded search for a literal word: an occurrence not preceded and
not followed by a word character (the regex b...b search). -/
def containsWordAux (w : List Char) : List Char → Bool → Bool
  | [], _ => false
  | c :: cs, prevW =>
    (if prevW then false
     else
       match matchPrefixList w (c :: cs) with
       | some rest =>
         match rest with
         | [] => true
         | r :: _ => ! isWordChar r
       | none => false) ||
      containsWordAux w cs (isWordChar c)

/-- Embeds _anchor_score: the count of anchor words found in the
upper-cased text, plus 2 if a date parses from it, plus 1 if a scale
parses from it. -/
def _anchor_score (text : String) : ℕ :=
  if text = "" then 0
  else
    (OCR_ANCHORS.filter
        (fun w => containsWordAux w.data (pyUpper text).data false)).length +
      (if normalize_date_to_ymd (pyUpper text) ≠ "" then 2 else 0) +
      (if parse_scale (pyUpper text) ≠ "" then 1 else 0)

/-! ## Variant selection (src lines 474-493, best_ocr_from_variants)

The OCR step per rendering is external; a candidate is its text and the
engine's reported average confidence, modelled as a rational. -/

structure OcrCand where
  text : String
  conf : ℚ
deriving DecidableEq

/-- The running best of the selection loop: text, confidence and anchor
score, with the loop's sentinels -1. -/
structure BestState where
  text : String
  conf : ℚ
  anchor : ℤ
deriving DecidableEq

def bestInit : BestState := ⟨"", -1, -1⟩

/-- One iteration of the selection loop of best_ocr_from_variants: the
candidate replaces the running best exactly when it is strictly greater
in the (anchor, confidence, length) lexicographic order. -/
def bestStep (b : BestState) (c : OcrCand) : BestState :=
  if ((_anchor_score c.text : ℤ) > b.anchor) ∨
      ((_anchor_score c.text : ℤ) = b.anchor ∧ c.conf > b.conf) ∨
      ((_anchor_score c.text : ℤ) = b.anchor ∧ c.conf = b.conf ∧
        c.text.length > b.text.length) then
    ⟨c.text, c.conf, (_anchor_score c.text : ℤ)⟩
  else b

/-- Embeds best_ocr_from_variants over the candidate list. -/
def best_ocr_from_variants (cands : List OcrCand) : BestState :=
  cands.foldl bestStep bestInit

/-- The selection key of a candidate. -/
def candKey (c : OcrCand) : ℕ × ℚ × ℕ :=
  (_anchor_score c.text, c.conf, c.text.length)

/-- Strict lexicographic order on selection keys. -/
abbrev keyLt (a b : ℕ × ℚ × ℕ) : Prop :=
  a.1 < b.1 ∨ (a.1 = b.1 ∧ (a.2.1 < b.2.1 ∨ (a.2.1 = b.2.1 ∧ a.2.2 < b.2.2)))

def stateOf (c : OcrCand) : BestState :=
  ⟨c.text, c.conf, (_anchor_score c.text : ℤ)⟩

theorem bestStep_cond (b c : OcrCand) :
    (((_anchor_score c.text : ℤ) > (_anchor_score b.text : ℤ)) ∨
      (((_anchor_score c.text : ℤ) = (_anchor_score b.text : ℤ)) ∧
        c.conf > b.conf) ∨
      (((_anchor_score c.text : ℤ) = (_anchor_score b.text : ℤ)) ∧
        c.conf = b.conf ∧ c.text.length > b.text.length)) ↔
      keyLt (candKey b) (candKey c) := by
  unfold candKey keyLt
  simp only [gt_iff_lt, Nat.cast_lt, Nat.cast_inj]
  constructor
  · rintro (h | ⟨he, h⟩ | ⟨he, hc, h⟩)
    · exact Or.inl h
    · exact Or.inr ⟨he.symm, Or.inl h⟩
    · exact Or.inr ⟨he.symm, Or.inr ⟨hc.symm, h⟩⟩
  · rintro (h | ⟨he, h | ⟨hc, h⟩⟩)
    · exact Or.inl h
    · exact Or.inr (Or.inl ⟨he.symm, h⟩)
    · exact Or.inr (Or.inr ⟨he.symm, hc.symm, h⟩)

theorem bestStep_stateOf (b c : OcrCand) :
    bestStep (stateOf b) c =
      if keyLt (candKey b) (candKey c) then stateOf c else stateOf b := by
  unfold bestStep stateOf
  exact if_congr (bestStep_cond b c) rfl rfl

theorem bestStep_init (c : OcrCand) : bestStep bestInit c = stateOf c := by
  unfold bestStep bestInit stateOf
  rw [if_pos]
  left
  show (-1 : ℤ) < (_anchor_score c.text : ℤ)
  have h0 : (0 : ℤ) ≤ (_anchor_score c.text : ℤ) := Int.natCast_nonneg _
  omega

def pickFirstMax (b : OcrCand) : List OcrCand → OcrCand
  | [] => b
  | c :: cs => pickFirstMax (if keyLt (candKey b) (candKey c) then c else b) cs

theorem foldl_pickFirstMax (cs : List OcrCand) (b : OcrCand) :
    cs.foldl bestStep (stateOf b) = stateOf (pickFirstMax b cs) := by
  induction cs generalizing b with
  | nil => rfl
  | cons c cs ih =>
    rw [List.foldl_cons, bestStep_stateOf, pickFirstMax]
    by_cases h : keyLt (candKey b) (candKey c)
    · rw [if_pos h, if_pos h]
      exact ih c
    · rw [if_neg h, if_neg h]
      exact ih b

theorem keyLt_irrefl (a : ℕ × ℚ × ℕ) : ¬ keyLt a a := by
  rintro (h | ⟨_, h | ⟨_, h⟩⟩) <;> exact lt_irrefl _ h

theorem keyLt_trans {a b c : ℕ × ℚ × ℕ} (h1 : keyLt a b) (h2 : keyLt b c) :
    keyLt a c := by
  rcases h1 with h1 | ⟨e1, h1⟩ <;> rcases h2 with h2 | ⟨e2, h2⟩
  · exact Or.inl (lt_trans h1 h2)
  · exact Or.inl (by rw [← e2]; exact h1)
  · exact Or.inl (by rw [e1]; exact h2)
  · refine Or.inr ⟨e1.trans e2, ?_⟩
    rcases h1 with h1 | ⟨f1, h1⟩ <;> rcases h2 with h2 | ⟨f2, h2⟩
    · exact Or.inl (lt_trans h1 h2)
    · exact Or.inl (by rw [← f2]; exact h1)
    · exact Or.inl (by rw [f1]; exact h2)
    · exact Or.inr ⟨f1.trans f2, lt_trans h1 h2⟩

theorem keyLt_total (a b : ℕ × ℚ × ℕ) : keyLt a b ∨ a = b ∨ keyLt b a := by
  rcases lt_trichotomy a.1 b.1 with h | h | h
  · exact Or.inl (Or.inl h)
  · rcases lt_trichotomy a.2.1 b.2.1 with h2 | h2 | h2
    · exact Or.inl (Or.inr ⟨h, Or.inl h2⟩)
    · rcases lt_trichotomy a.2.2 b.2.2 with h3 | h3 | h3
      · exact Or.inl (Or.inr ⟨h, Or.inr ⟨h2, h3⟩⟩)
      · refine Or.inr (Or.inl ?_)
        exact Prod.ext h (Prod.ext h2 h3)
      · exact Or.inr (Or.inr (Or.inr ⟨h.symm, Or.inr ⟨h2.symm, h3⟩⟩))
    · exact Or.inr (Or.inr (Or.inr ⟨h.symm, Or.inl h2⟩))
  · exact Or.inr (Or.inr (Or.inl h))

theorem pickFirstMax_spec (cs : List OcrCand) (b : OcrCand) :
    ∃ i : ℕ, ∃ hi : i < (b :: cs).length,
      pickFirstMax b cs = (b :: cs).get ⟨i, hi⟩ ∧
      (∀ j (hj : j < (b :: cs).length),
        ¬ keyLt (candKey ((b :: cs).get ⟨i, hi⟩))
          (candKey ((b :: cs).get ⟨j, hj⟩))) ∧
      (∀ j (hj : j < (b :: cs).length), j < i →
        keyLt (candKey ((b :: cs).get ⟨j, hj⟩))
          (candKey ((b :: cs).get ⟨i, hi⟩))) := by
  induction cs generalizing b with
  | nil =>
    refine ⟨0, by simp, rfl, ?_, ?_⟩
    · intro j hj
      rcases j with _ | j
      · exact keyLt_irrefl _
      · simp at hj
    · intro j hj hji
      omega
  | cons c cs ih =>
    rw [pickFirstMax]
    by_cases hbc : keyLt (candKey b) (candKey c)
    · rw [if_pos hbc]
      obtain ⟨i, hi, heq, hmax, hfirst⟩ := ih c
      refine ⟨i + 1, by simp at hi ⊢; omega, heq, ?_, ?_⟩
      · intro j hj
        rcases j with _ | j
        · intro hlt
          exact hmax 0 (by simp) (keyLt_trans hlt hbc)
        · exact hmax j (by simp at hj ⊢; omega)
      · intro j hj hji
        rcases j with _ | j
        · rcases Nat.eq_zero_or_pos i with hi0 | hipos
          · subst hi0
            exact hbc
          · exact keyLt_trans hbc (hfirst 0 (by simp) hipos)
        · exact hfirst j (by simp at hj ⊢; omega) (by omega)
    · rw [if_neg hbc]
      obtain ⟨i, hi, heq, hmax, hfirst⟩ := ih b
      rcases i with _ | i
      · refine ⟨0, by simp, heq, ?_, ?_⟩
        · intro j hj
          rcases j with _ | j
          · exact hmax 0 (by simp)
          · rcases j with _ | j
            · exact hbc
            · exact hmax (j + 1) (by simp at hj ⊢; omega)
        · intro j hj hji
          omega
      · have hmax1 : ¬ keyLt (candKey ((b :: cs).get ⟨i + 1, hi⟩))
            (candKey c) := by
          intro hlt
          exact hbc (keyLt_trans (hfirst 0 (by simp) (by omega)) hlt)
        refine ⟨i + 2, by simp at hi ⊢; omega, heq, ?_, ?_⟩
        · intro j hj
          rcases j with _ | j
          · exact hmax 0 (by simp)
          · rcases j with _ | j
            · exact hmax1
            · exact hmax (j + 1) (by simp at hj ⊢; omega)
        · intro j hj hji
          rcases j with _ | j
          · exact hfirst 0 (by simp) (by omega)
          · rcases j with _ | j
            · rcases keyLt_total (candKey c)
                (candKey ((b :: cs).get ⟨i + 1, hi⟩)) with h | h | h
              · exact h
              · exfalso
                apply hbc
                have hb0 := hfirst 0 (by simp) (by omega)
                rw [← h] at hb0
                exact hb0
              · exact absurd h hmax1
            · exact hfirst (j + 1) (by simp at hj ⊢; omega) (by omega)

/-- C5: over any non-empty candidate list, best_ocr_from_variants selects
the first candidate that is maximal under the strict lexicographic order
on (anchor score, confidence, text length): the result is the state of
some candidate whose key no candidate exceeds, and every earlier
candidate has a strictly smaller key, so ties at every level keep the
first-seen candidate and the selection is a function of the list alone. -/
theorem C5_variant_selection (cands : List OcrCand) (h : cands ≠ []) :
    ∃ i : ℕ, ∃ hi : i < cands.length,
      best_ocr_from_variants cands = stateOf (cands.get ⟨i, hi⟩) ∧
      (∀ j (hj : j < cands.length),
        ¬ keyLt (candKey (cands.get ⟨i, hi⟩)) (candKey (cands.get ⟨j, hj⟩))) ∧
      (∀ j (hj : j < cands.length), j < i →
        keyLt (candKey (cands.get ⟨j, hj⟩)) (candKey (cands.get ⟨i, hi⟩))) := by
  rcases cands with _ | ⟨c, cs⟩
  · exact absurd rfl h
  have hrun : best_ocr_from_variants (c :: cs) = stateOf (pickFirstMax c cs) := by
    unfold best_ocr_from_variants
    rw [List.foldl_cons, bestStep_init]
    exact foldl_pickFirstMax cs c
  obtain ⟨i, hi, heq, hmax, hfirst⟩ := pickFirstMax_spec cs c
  exact ⟨i, hi, by rw [hrun, heq], hmax, hfirst⟩

theorem C5_witness :
    ∃ i : ℕ, ∃ hi : i < ([⟨"COUNTRY JAPAN", 1⟩, ⟨"", 9⟩] : List OcrCand).length,
      best_ocr_from_variants [⟨"COUNTRY JAPAN", 1⟩, ⟨"", 9⟩] =
        stateOf (([⟨"COUNTRY JAPAN", 1⟩, ⟨"", 9⟩] : List OcrCand).get ⟨i, hi⟩) ∧
      (∀ j (hj : j < ([⟨"COUNTRY JAPAN", 1⟩, ⟨"", 9⟩] : List OcrCand).length),
        ¬ keyLt (candKey (([⟨"COUNTRY JAPAN", 1⟩, ⟨"", 9⟩] : List OcrCand).get
            ⟨i, hi⟩))
          (candKey (([⟨"COUNTRY JAPAN", 1⟩, ⟨"", 9⟩] : List OcrCand).get
            ⟨j, hj⟩))) ∧
      (∀ j (hj : j < ([⟨"COUNTRY JAPAN", 1⟩, ⟨"", 9⟩] : List OcrCand).length),
        j < i →
        keyLt (candKey (([⟨"COUNTRY JAPAN", 1⟩, ⟨"", 9⟩] : List OcrCand).get
            ⟨j, hj⟩))
          (candKey (([⟨"COUNTRY JAPAN", 1⟩, ⟨"", 9⟩] : List OcrCand).get
            ⟨i, hi⟩))) :=
  C5_variant_selection [⟨"COUNTRY JAPAN", 1⟩, ⟨"", 9⟩] (by decide)

/-! ## Field parsing of the country/state/location triple
(src lines 113-116 UPPER_TRIPLE_SPLIT, 161-165 sanitize_text,
499-529 parse_country_state_location) -/

/-- Embeds sanitize_text: form feeds become spaces, zero-width marks are
removed, space/tab runs collapse to a single space. -/
def collapseWsAux : Bool → List Char → List Char
  | _, [] => []
  | prev, c :: cs =>
    if c = ' ' ∨ c = '\t' then
      if prev then collapseWsAux true cs else ' ' :: collapseWsAux true cs
    else c :: collapseWsAux false cs

def sanitize_text (text : String) : String :=
  ⟨collapseWsAux false
    ((text.data.map (fun c => if c = '\x0c' then ' ' else c)).filter
      (fun c => ¬ (c.toNat = 0x200b ∨ c.toNat = 0x200c ∨ c.toNat = 0x200d)))⟩

/-- The apostrophe character of the regex classes. -/
def apostChar : Char := Char.ofNat 39

/-- The class of the first and second groups of UPPER_TRIPLE_SPLIT. -/
def isG1Char (c : Char) : Bool :=
  c.isUpper ∨ c = '-' ∨ c = ' ' ∨ c = '.' ∨ c = apostChar ∨ c = '(' ∨
    c = ')' ∨ c = '&' ∨ c = '/'

def isG3Head (c : Char) : Bool := c.isUpper ∨ c.isDigit

/-- The class of the third group of UPPER_TRIPLE_SPLIT. -/
def isG3Char (c : Char) : Bool :=
  c.isUpper ∨ c.isDigit ∨ c = '-' ∨ c = ' ' ∨ c = '.' ∨ c = ',' ∨
    c = apostChar ∨ c = '(' ∨ c = ')' ∨ c = '&' ∨ c = '/'

/-- The third group: head-class character then one or more tail-class
characters, greedy to the end of the line (the pattern is anchored). -/
def matchG3 (cs : List Char) : Option (List Char) :=
  match cs with
  | c :: rest =>
    if isG3Head c ∧ rest ≠ [] ∧ rest.all isG3Char then some cs else none
  | [] => none

/-- Two or more whitespace characters, greedy; yields the remainder. -/
def gapSplit (cs : List Char) : Option (List Char) :=
  if 2 ≤ (cs.takeWhile pyWs).length then some (cs.dropWhile pyWs) else none

/-- Lazy tail of the second group: after each added character, try the
gap-then-third-group continuation before growing further. -/
def g2Loop (acc : List Char) : List Char → Option (List Char × List Char)
  | [] => none
  | c :: rest =>
    if isG1Char c then
      match (gapSplit rest).bind matchG3 with
      | some g3 => some (acc ++ [c], g3)
      | none => g2Loop (acc ++ [c]) rest
    else none

def matchAfterG1 (cs : List Char) : Option (List Char × List Char) :=
  match gapSplit cs with
  | some r =>
    match r with
    | c :: rest => if c.isUpper then g2Loop [c] rest else none
    | [] => none
  | none => none

/-- Lazy tail of the first group. -/
def g1Loop (acc : List Char) :
    List Char → Option (List Char × List Char × List Char)
  | [] => none
  | c :: rest =>
    if isG1Char c then
      match matchAfterG1 rest with
      | some g23 => some (acc ++ [c], g23.1, g23.2)
      | none => g1Loop (acc ++ [c]) rest
    else none

/-- Embeds the anchored match of UPPER_TRIPLE_SPLIT: uppercase words, two
or more spaces, uppercase words, two or more spaces, uppercase/digit
words, to the end of the line; the first two groups are lazy. -/
def matchTriple (cs : List Char) :
    Option (List Char × List Char × List Char) :=
  match cs with
  | c :: rest => if c.isUpper then g1Loop [c] rest else none
  | [] => none

/-- Strategy A on one line (src lines 508-511): match the stripped line
against the triple pattern and strip the groups. -/
def strategyA_line (line : String) : Option (String × String × String) :=
  (matchTriple (pyStrip line).data).map
    (fun t => (pyStrip ⟨t.1⟩, pyStrip ⟨t.2.1⟩, pyStrip ⟨t.2.2⟩))

/-- Strategy B separators (src line 515). -/
def bSeparator (c : Char) : Bool := c = ';' ∨ c = ',' ∨ c = '\t'

def splitOnSepsAux (acc : List Char) : List Char → List (List Char)
  | [] => [acc.reverse]
  | c :: cs =>
    if bSeparator c then acc.reverse :: splitOnSepsAux [] cs
    else splitOnSepsAux (c :: acc) cs

def pyStripList (l : List Char) : List Char :=
  ((l.dropWhile pyWs).reverse.dropWhile pyWs).reverse

/-- Embeds _looks_like_text: at least two alphabetic characters. -/
def _looks_like_text (s : String) : Bool :=
  2 ≤ (s.data.filter Char.isAlpha).length

/-- Strategy B on one line (src lines 514-519): split on the separators
(whitespace around a separator belongs to the split), keep the first
three parts when all of them look like text. -/
def strategyB_line (line : String) : Option (String × String × String) :=
  match (splitOnSepsAux [] (pyStrip line).data).map pyStripList with
  | a :: b :: c :: _ =>
    if _looks_like_text ⟨a⟩ ∧ _looks_like_text ⟨b⟩ ∧ _looks_like_text ⟨c⟩ then
      some (⟨a⟩, ⟨b⟩, ⟨c⟩)
    else none
  | _ => none

/-- The separator run of the Strategy C label patterns: colon, hyphen or
whitespace. -/
def isSepC (c : Char) : Bool := c = ':' ∨ c = '-' ∨ pyWs c

/-- The COUNTRY group class (case-insensitive letters plus punctuation). -/
def isCountryGC (c : Char) : Bool :=
  c.isAlpha ∨ c = ' ' ∨ c = '.' ∨ c = ',' ∨ c = apostChar ∨ c = '(' ∨
    c = ')' ∨ c = '&' ∨ c = '/' ∨ c = '-'

/-- The STATE/LOCATION group class: additionally digits. -/
def isStateGC (c : Char) : Bool := isCountryGC c ∨ c.isDigit

/-- After a label: one or more separator characters (greedy, with the
regex backtracking that can hand the last separator characters to the
group when nothing else follows), then the greedy group. -/
def sepGroupSearch (gc : Char → Bool) (cs : List Char) : Option (List Char) :=
  if cs.takeWhile isSepC = [] then none
  else
    match cs.dropWhile isSepC with
    | c :: _ =>
      if gc c then some ((cs.dropWhile isSepC).takeWhile gc)
      else (((cs.takeWhile isSepC).drop 1).filter gc).getLast?.map
        (fun x => [x])
    | [] =>
      (((cs.takeWhile isSepC).drop 1).filter gc).getLast?.map (fun x => [x])

def matchPrefixCI : List Char → List Char → Option (List Char)
  | [], rest => some rest
  | _ :: _, [] => none
  | p :: ps, c :: cs =>
    if p.toUpper = c.toUpper then matchPrefixCI ps cs else none

/-- Leftmost occurrence of label-separators-group (the Strategy C regex,
case-insensitive, no word boundary around the label). -/
def labelSearch (label : List Char) (gc : Char → Bool) :
    List Char → Option (List Char)
  | [] => none
  | c :: cs =>
    match matchPrefixCI label (c :: cs) with
    | some rest =>
      match sepGroupSearch gc rest with
      | some g => some g
      | none => labelSearch label gc cs
    | none => labelSearch label gc cs

/-- Strategy C (src lines 521-529): explicit COUNTRY/STATE/LOCATION labels
searched in the first 80 lines joined as one block. -/
def strategyC (lines : List String) : String × String × String :=
  (match labelSearch "COUNTRY".data isCountryGC
      (String.intercalate "\n" (lines.take 80)).data with
   | some g => pyStrip ⟨g⟩
   | none => "",
   match labelSearch "STATE".data isStateGC
      (String.intercalate "\n" (lines.take 80)).data with
   | some g => pyStrip ⟨g⟩
   | none => "",
   match labelSearch "LOCATION".data isStateGC
      (String.intercalate "\n" (lines.take 80)).data with
   | some g => pyStrip ⟨g⟩
   | none => "")

/-- Embeds parse_country_state_location: Strategy A over the first 20
lines, then Strategy B over the first 30, then Strategy C. -/
def parse_country_state_location (lines : List String) :
    String × String × String :=
  match (lines.take 20).findSome? strategyA_line with
  | some t => t
  | none =>
    match (lines.take 30).findSome? strategyB_line with
    | some t => t
    | none => strategyC lines

theorem findSome?_all_none_append {α β : Type} (f : α → Option β)
    (pre l : List α) (hpre : ∀ a ∈ pre, f a = none) :
    (pre ++ l).findSome? f = l.findSome? f := by
  induction pre with
  | nil => rfl
  | cons a pre ih =>
    rw [List.cons_append, List.findSome?, hpre a (by simp)]
    exact ih (fun x hx => hpre x (by simp [hx]))

/-- C6, the claim as frozen, fails on the code: Strategy A returns the
first matching line among the first 20, so the presence of the line
"JAPAN  HONSHU  TOKYO BAY" does not make the extraction return its
triple when an earlier line also matches the Strategy A pattern. -/
theorem C6_counterexample :
    parse_country_state_location
        ["USA  ALASKA  SITKA", "JAPAN  HONSHU  TOKYO BAY"] =
      ("USA", "ALASKA", "SITKA") ∧
    "JAPAN  HONSHU  TOKYO BAY" ∈
      (["USA  ALASKA  SITKA", "JAPAN  HONSHU  TOKYO BAY"].take 20) ∧
    (("USA", "ALASKA", "SITKA") : String × String × String) ≠
      ("JAPAN", "HONSHU", "TOKYO BAY") := by
  refine ⟨by decide, by decide, by decide⟩

/-- C6 (amended): when the line "JAPAN  HONSHU  TOKYO BAY" (two spaces
between parts) appears among the first 20 lines given to the Field Parser
and no earlier of those lines matches the Strategy A pattern, triplet
extraction succeeds via Strategy A and returns exactly
("JAPAN", "HONSHU", "TOKYO BAY"). -/
theorem C6_strategyA (lines : List String) (pre post : List String)
    (hsplit : lines.take 20 = pre ++ "JAPAN  HONSHU  TOKYO BAY" :: post)
    (hpre : ∀ l ∈ pre, strategyA_line l = none) :
    (lines.take 20).findSome? strategyA_line =
      some ("JAPAN", "HONSHU", "TOKYO BAY") ∧
    parse_country_state_location lines = ("JAPAN", "HONSHU", "TOKYO BAY") := by
  have hfind : (lines.take 20).findSome? strategyA_line =
      some ("JAPAN", "HONSHU", "TOKYO BAY") := by
    rw [hsplit, findSome?_all_none_append _ pre _ hpre, List.findSome?,
      show strategyA_line "JAPAN  HONSHU  TOKYO BAY" =
        some ("JAPAN", "HONSHU", "TOKYO BAY") from by decide]
  refine ⟨hfind, ?_⟩
  unfold parse_country_state_location
  rw [hfind]

theorem C6_witness :
    parse_country_state_location ["JAPAN  HONSHU  TOKYO BAY"] =
      ("JAPAN", "HONSHU", "TOKYO BAY") :=
  (C6_strategyA ["JAPAN  HONSHU  TOKYO BAY"] [] [] (by decide)
    (by simp)).2
